import Mathlib

/-!
Shallow embedding of the shift-bot repository (Python, aiogram + Google Sheets)
for checking its natural-language specification.

Modelling conventions, used throughout:

* Python `float` values are idealised as `ℚ` (exact rationals).  The claims under
  check concern which arithmetic is performed and which strings parse, not IEEE
  rounding, so the idealisation is faithful for them.
* Python `date` values are identified with their proleptic-Gregorian ordinal and
  modelled as `Int`; `date` comparison and `timedelta(days=n)` arithmetic then
  coincide with integer comparison and subtraction (as in CPython, where both
  reduce to `toordinal`).  Python `datetime` values are modelled at the
  minute granularity of the bot's storage format `"%d.%m.%Y %H:%M"`.
* The spreadsheet is the external store collaborator.  A cell is modelled by the
  `Cell` alphabet below: `num` is a numeric cell, `dateStr d` stands for text
  that `datetime.strptime` accepts in one of the five date formats of
  `utils.parse_date` and that denotes the date `d` (the canonical such text is
  the `strftime` output `format_date d`), `dtStr t` stands for text in the
  datetime format denoting `t`, and `str s` covers all remaining text, i.e. text
  that matches none of the five formats.  Since `strftime` output is inverted by
  `strptime` and date-format text never parses as a Python `float` (it contains
  at least two separators), the cell-level parsing functions below are the exact
  composites of the Python ones on this alphabet.
* `str.strip()` is modelled on ASCII whitespace; `str.lower()` on ASCII and the
  Ukrainian Cyrillic letters that appear in the data (the only ones the code
  compares).  `re.sub(r"[^\d]", "", s)` keeps decimal digits; the model uses
  ASCII digits, the only digits occurring in the modelled data.
* Python `float(text)` is modelled with its full ASCII grammar: optional
  sign, underscore-grouped digits with optional fraction and exponent, and the
  case-insensitive `inf`/`infinity`/`nan` spellings, whose non-finite values
  get their own constructors.  Unicode digits and non-ASCII whitespace stay
  outside the modelled text alphabet, and finite values are exact rationals
  (IEEE rounding and exponent overflow/underflow are outside the model).
  Record fields hold finite rationals, so store cells whose text denotes an
  infinity or nan are likewise outside the modelled store alphabet.
-/

/-- Python whitespace for `str.strip` (ASCII subset). -/
def isPyWS (c : Char) : Bool :=
  c = ' ' || c = '\t' || c = '\n' || c = '\r' || c = '\x0b' || c = '\x0c'

/-- Characters of `s.strip()`: drop whitespace from both ends. -/
def stripChars (cs : List Char) : List Char :=
  ((cs.dropWhile isPyWS).reverse.dropWhile isPyWS).reverse

/-- Model of Python `str.strip()`. -/
def pyStrip (s : String) : String :=
  ⟨stripChars s.data⟩

/-- Model of `text.replace(",", ".")` (single-character replacement). -/
def commaToDot (c : Char) : Char :=
  if c = ',' then '.' else c

/-- Numeric value of a list of decimal digit characters (empty list gives 0,
matching its use for the integer and fractional parts of a float literal). -/
def digitsVal (cs : List Char) : Nat :=
  cs.foldl (fun a c => 10 * a + (c.toNat - 48)) 0

/-- Value of the fractional digit string `frac` of a decimal literal. -/
def fracVal (cs : List Char) : ℚ :=
  (digitsVal cs : ℚ) / (10 : ℚ) ^ cs.length

/-- Split of an optional leading sign: the sign factor and the remaining
body. -/
def signSplit (cs : List Char) : ℚ × List Char :=
  match cs with
  | c :: t =>
      if c = '+' then (1, t) else if c = '-' then (-1, t) else (1, cs)
  | [] => (1, [])

/-- Model of Python `str.lower()` on ASCII letters and the Ukrainian Cyrillic
letters occurring in the modelled data. -/
def pyLowerChar (c : Char) : Char :=
  if 'A' ≤ c ∧ c ≤ 'Z' then Char.ofNat (c.toNat + 32)
  else if 'А' ≤ c ∧ c ≤ 'Я' then Char.ofNat (c.toNat + 32)
  else if c = 'І' then 'і'
  else if c = 'Ї' then 'ї'
  else if c = 'Є' then 'є'
  else if c = 'Ґ' then 'ґ'
  else c

/-- Result of Python `float(text)`: a finite value (idealised as an exact
rational), an infinity, or nan. -/
inductive PyFloat where
  | fin (q : ℚ)
  | inf
  | ninf
  | nan
deriving DecidableEq, Repr

/-- Run of decimal digits with CPython underscore grouping (an underscore is
legal only between two digits).  Accumulates onto `v` (value so far) and
`cnt` (digits so far) and returns them with the unconsumed remainder; an
underscore not followed by a digit is left unconsumed (the caller then
rejects the leftover, as CPython rejects the whole literal). -/
def digitsUndAux (v cnt : Nat) : List Char → Nat × Nat × List Char
  | [] => (v, cnt, [])
  | c :: rest =>
      if c.isDigit then
        digitsUndAux (10 * v + (c.toNat - 48)) (cnt + 1) rest
      else if c = '_' then
        match rest with
        | d :: rest2 =>
            if d.isDigit then
              digitsUndAux (10 * v + (d.toNat - 48)) (cnt + 1) rest2
            else (v, cnt, c :: d :: rest2)
        | [] => (v, cnt, [c])
      else (v, cnt, c :: rest)

/-- Digit run that must start with a digit: value, number of digits, and the
remainder; `none` when the text does not start with a digit. -/
def parseDigitsU (cs : List Char) : Option (Nat × Nat × List Char) :=
  match cs with
  | c :: rest =>
      if c.isDigit then some (digitsUndAux (c.toNat - 48) 1 rest)
      else none
  | [] => none

/-- Mantissa of a CPython float literal: `digits [. [digits]]` or
`. digits`, underscore grouping included; returns the value and the
remainder (where an exponent may follow). -/
def parseMantissa (cs : List Char) : Option (ℚ × List Char) :=
  match parseDigitsU cs with
  | some (iv, _, rest) =>
      match rest with
      | c :: r2 =>
          if c = '.' then
            match parseDigitsU r2 with
            | some (fv, fcnt, rest3) =>
                some ((iv : ℚ) + (fv : ℚ) / (10 : ℚ) ^ fcnt, rest3)
            | none => some ((iv : ℚ), r2)
          else some ((iv : ℚ), c :: r2)
      | [] => some ((iv : ℚ), [])
  | none =>
      match cs with
      | c :: r2 =>
          if c = '.' then
            match parseDigitsU r2 with
            | some (fv, fcnt, rest3) =>
                some ((fv : ℚ) / (10 : ℚ) ^ fcnt, rest3)
            | none => none
          else none
      | [] => none

/-- Exponent suffix of a CPython float literal: empty text is factor 1, and
`[eE][+-]?digits` consuming everything is the power of ten; anything else
makes the literal invalid. -/
def parseExponent (cs : List Char) : Option ℚ :=
  match cs with
  | [] => some 1
  | c :: r =>
      if c = 'e' ∨ c = 'E' then
        let (sgn, r2) : Int × List Char :=
          match r with
          | c2 :: t =>
              if c2 = '+' then (1, t)
              else if c2 = '-' then (-1, t)
              else (1, r)
          | [] => (1, [])
        match parseDigitsU r2 with
        | some (ev, _, []) => some ((10 : ℚ) ^ (sgn * (ev : Int)))
        | _ => none
      else none

/-- Unsigned magnitude of a CPython float literal: a numeric literal
(mantissa and optional exponent), or an `inf`, `infinity` or `nan` spelling,
case-insensitive.  The two alternatives are disjoint (a spelling has no digit
and no leading dot), so trying the numeric form first is faithful. -/
def pyFloatMagnitude (body : List Char) : Option PyFloat :=
  match parseMantissa body with
  | some (m, rest) =>
      match parseExponent rest with
      | some p => some (.fin (m * p))
      | none => none
  | none =>
      let low := body.map pyLowerChar
      if low = [ 'i', 'n', 'f'] ∨
          low = [ 'i', 'n', 'f', 'i', 'n', 'i', 't', 'y'] then some .inf
      else if low = [ 'n', 'a', 'n'] then some .nan
      else none

/-- Negation of a float value (`float("-nan")` is still nan). -/
def pyFloatNegate (v : PyFloat) : PyFloat :=
  match v with
  | .fin q => .fin (-q)
  | .inf => .ninf
  | .ninf => .inf
  | .nan => .nan

/-- Model of CPython `float(text)` on character lists: optional sign, then a
numeric literal (underscore-grouped digits, optional fraction and exponent)
or an infinity/nan spelling.  Returns `none` where Python raises
`ValueError`.  Whitespace stripping, which `float` also performs, is factored
out: every use site strips first.  Unicode digits and non-ASCII whitespace
remain outside the modelled text alphabet, and the float-to-ℚ idealisation
means a decimal literal denotes its exact rational value (IEEE rounding, and
overflow or underflow of huge exponents, are outside the model). -/
def pyFloatChars (cs : List Char) : Option PyFloat :=
  match cs with
  | c :: t =>
      if c = '+' then pyFloatMagnitude t
      else if c = '-' then (pyFloatMagnitude t).map pyFloatNegate
      else pyFloatMagnitude cs
  | [] => none

/-- The Python test `value < 0` on a float value: true for negative finite
values and negative infinity, false for nan and positive infinity. -/
def pyFloatIsNeg (v : PyFloat) : Bool :=
  match v with
  | .fin q => q < 0
  | .inf => false
  | .ninf => true
  | .nan => false

/-- Finite float value of stored text, as `float(value)` reads it (`float`
strips the text itself).  Record fields are finite rationals, so text whose
float value is an infinity or nan is outside the modelled store alphabet (an
inf-spelling id cell would even abort the read: `int(float(...))` raises an
OverflowError that `parse_int` does not catch); the model reads such text as
a parse failure. -/
def pyFloatFinite (s : String) : Option ℚ :=
  match pyFloatChars (stripChars s.data) with
  | some (.fin q) => some q
  | _ => none

/-- Python `int(x)` truncates a float toward zero. -/
def ratTrunc (q : ℚ) : Int :=
  if 0 ≤ q then ⌊q⌋ else ⌈q⌉

/-- Source `utils.parse_hours`: normalise decimal commas to dots, strip, parse
as float; reject values below zero (so nan and positive infinity pass
through, matching CPython).  `none` models Python `None`. -/
def parse_hours (text : String) : Option PyFloat :=
  match pyFloatChars (stripChars (text.data.map commaToDot)) with
  | none => none
  | some v => if pyFloatIsNeg v then none else some v

/-- Claim-side unsigned decimal-numeral body, written from the spec's words:
digits with at most one separator, the separator being a comma or a dot. -/
def specBodyVal (body : List Char) : Option ℚ :=
  let intPart := body.takeWhile Char.isDigit
  let rest := body.dropWhile Char.isDigit
  match rest with
  | [] =>
      if intPart.isEmpty then none
      else some (digitsVal intPart : ℚ)
  | sep :: frac =>
      if (sep = ',' ∨ sep = '.') ∧ frac.all Char.isDigit ∧
          ¬(intPart.isEmpty ∧ frac.isEmpty)
      then some ((digitsVal intPart : ℚ) + fracVal frac)
      else none

/-- Claim-side decimal-numeral reader, written from the spec's words: an
optionally signed digit string with at most one separator, the separator being
a comma or a dot ("valid decimal numeral with comma or dot separator").
Returns the denoted value, or `none` when the text is not such a numeral. -/
def specDecimalValue (cs : List Char) : Option ℚ :=
  ((specBodyVal (signSplit cs).2).map ((signSplit cs).1 * ·))

/-- Text after an optional leading sign. -/
def signBody (cs : List Char) : List Char :=
  match cs with
  | c :: t => if c = '+' ∨ c = '-' then t else cs
  | [] => []

/-- Case-insensitive test for the `inf`, `infinity` and `nan` spellings. -/
def isInfNanSpelling (body : List Char) : Bool :=
  body.map pyLowerChar = [ 'i', 'n', 'f'] ||
    body.map pyLowerChar = [ 'i', 'n', 'f', 'i', 'n', 'i', 't', 'y'] ||
    body.map pyLowerChar = [ 'n', 'a', 'n']

/-- Claim-side "non-numeric text", written from the claim's words for the
strings CPython `float` certainly rejects: text containing no digit at all
that is not, after an optional sign, a spelling of infinity or nan. -/
def specNonNumericText (cs : List Char) : Bool :=
  cs.all (fun c => !c.isDigit) && !(isInfNanSpelling (signBody cs))

/-- Model of `re.sub(r"[^\d]", "", s)`: keep only digit characters. -/
def digitsOnly (s : String) : List Char :=
  s.data.filter Char.isDigit

/-- Check `digits.startswith("0")`. -/
def startsWithNat0 (cs : List Char) : Bool :=
  match cs with
  | c :: _ => c = '0'
  | [] => false

/-- Check `digits.startswith("380")`. -/
def startsWith380 (cs : List Char) : Bool :=
  match cs with
  | c1 :: c2 :: c3 :: _ => c1 = '3' && c2 = '8' && c3 = '0'
  | _ => false

/-- Source `__main__.sanitize_phone`: falsy input gives `None`; extract the
digits; a 10-digit string starting with "0" gets "38" prepended; a string
starting with "380" is returned; otherwise the digit string is returned, with
`None` for the empty one. -/
def sanitize_phone (raw : String) : Option String :=
  if raw.data.isEmpty then none
  else
    let digits := digitsOnly raw
    let digits :=
      if startsWithNat0 digits && digits.length == 10 then '3' :: '8' :: digits
      else digits
    if startsWith380 digits then some ⟨digits⟩
    else if digits.isEmpty then none else some ⟨digits⟩

/-- Model of Python `str.lower()`. -/
def pyLower (s : String) : String :=
  ⟨s.data.map pyLowerChar⟩

/-- Value of a digit run that must consume the whole text (the body of a
Python `int` literal). -/
def intDigitsVal (l : List Char) : Option Nat :=
  match parseDigitsU l with
  | some (v, _, []) => some v
  | _ => none

/-- Python `int(text)` on a string: strip, optional sign, then an
underscore-grouped digit string and nothing else (no dot or exponent, unlike
`float`). -/
def pyIntOfString (s : String) : Option Int :=
  match stripChars s.data with
  | c :: t =>
      if c = '+' then (intDigitsVal t).map (fun n => (n : Int))
      else if c = '-' then (intDigitsVal t).map (fun n => -(n : Int))
      else (intDigitsVal (c :: t)).map (fun n => (n : Int))
  | [] => none

/-- Python `date` modelled as its `toordinal` value. -/
abbrev Date := Int

/-- Python `datetime` at the minute granularity of the storage format
`"%d.%m.%Y %H:%M"` (see the module comment): a date ordinal and a
minute-of-day. -/
structure DateTime where
  day : Date
  minute : Nat
deriving DecidableEq, Repr

/-- Alphabet of spreadsheet cells (see the module comment). -/
inductive Cell where
  | str (t : String)
  | num (q : ℚ)
  | dateStr (d : Date)
  | dtStr (t : DateTime)
deriving DecidableEq, Repr

/-- Source `utils.parse_int` applied to a cell value: `int(float(value))`,
`None` on failure.  On a numeric cell `float` is the identity and `int`
truncates; date-format text never parses as a float. -/
def cellInt (c : Cell) : Option Int :=
  match c with
  | .num q => some (ratTrunc q)
  | .str t => (pyFloatFinite t).map ratTrunc
  | .dateStr _ => none
  | .dtStr _ => none

/-- Float parse of a cell, `none` where Python `float` raises. -/
def cellFloat (c : Cell) : Option ℚ :=
  match c with
  | .num q => some q
  | .str t => pyFloatFinite t
  | .dateStr _ => none
  | .dtStr _ => none

/-- Source `utils.parse_float` applied to a cell value: `float(value)` with
`0.0` substituted on failure. -/
def parse_float (c : Cell) : ℚ :=
  (cellFloat c).getD 0

/-- Source `utils.parse_date` (date mode) applied to a cell value: text in one
of the five accepted formats yields its date, datetime text yields its
`.date()`, all other cells yield `None` (numeric cells display without a
matching format). -/
def cellDate (c : Cell) : Option Date :=
  match c with
  | .dateStr d => some d
  | .dtStr t => some t.day
  | .str _ => none
  | .num _ => none

/-- Source `utils.parse_date` with `datetime_mode=True` applied to a cell:
date-only text parses at midnight, datetime text parses exactly. -/
def cellDateTime (c : Cell) : Option DateTime :=
  match c with
  | .dateStr d => some ⟨d, 0⟩
  | .dtStr t => some t
  | .str _ => none
  | .num _ => none

/-- Truthiness of a `col_values` entry (`if val` in `_next_id`): only the empty
display string is falsy. -/
def cellNonempty (c : Cell) : Bool :=
  match c with
  | .str t => t ≠ ""
  | _ => true

/-- Source `sheets.SHIFT_STATUS_PENDING`. -/
def SHIFT_STATUS_PENDING : String := "Очікує"

/-- Source `sheets.SHIFT_STATUS_APPROVED`. -/
def SHIFT_STATUS_APPROVED : String := "Підтверджено"

/-- Source `sheets.SHIFT_STATUS_DECLINED`. -/
def SHIFT_STATUS_DECLINED : String := "Відхилено"

/-- Source dataclass `sheets.Employee`.  The employees sheet is provisioned
externally and only read by the core; the model keeps it at the parsed-record
level of `_fetch_employees` (no claim concerns employee-row parsing). -/
structure Employee where
  name : String
  phone : String
  role : String
  shift_rate : ℚ
  overtime_rate : ℚ
  manager_name : Option String
deriving DecidableEq, Repr

/-- Source property `Employee.is_manager`: `role.lower() == "керівник"`. -/
def Employee.isManager (e : Employee) : Bool :=
  pyLower e.role = "керівник"

/-- Source dataclass `sheets.ShiftInput`. -/
structure ShiftInput where
  employee_name : String
  shift_date : Date
  shift_hours : ℚ
  overtime_hours : ℚ
  comment : String
  submitted_at : DateTime
  manager_name : Option String
deriving DecidableEq, Repr

/-- Source dataclass `sheets.ShiftRecord` (the typed record produced by
`_fetch_shift_records`). -/
structure ShiftRecord where
  row_index : Nat
  shift_id : Int
  employee_name : String
  shift_date : Date
  overtime_hours : ℚ
  shift_hours : ℚ
  comment : String
  submitted_at : Option DateTime
  status : String
  approved_at : Option DateTime
  manager_comment : String
  manager_name : Option String
deriving DecidableEq, Repr

/-- One data row of the shifts worksheet, in its fixed column order
A..K (id, name, shift date, overtime, shift hours, comment, submitted at,
status, approved at, manager comment, manager name).  The columns that
`_fetch_shift_records` reads with `.strip()` must hold text for the read not to
raise, and every write of the program puts text there, so the model types them
as `String`; the remaining columns are arbitrary cells. -/
structure ShiftRow where
  id_cell : Cell
  name_cell : String
  date_cell : Cell
  overtime_cell : Cell
  hours_cell : Cell
  comment_cell : String
  submitted_cell : Cell
  status_cell : String
  approved_cell : Cell
  mgr_comment_cell : String
  mgr_name_cell : String
deriving DecidableEq, Repr

/-- One data row of the accruals worksheet.  Only the id column is ever read
back (by `_next_id`), so it is kept as a raw cell; the payload columns are
typed as the program's `_append_accrual` writes them. -/
structure AccrualRow where
  id_cell : Cell
  employee_name : String
  date_cell : Cell
  overtime_hours : ℚ
  shift_rate : ℚ
  overtime_rate : ℚ
  shift_sum : ℚ
  overtime_sum : ℚ
  total_sum : ℚ
deriving DecidableEq, Repr

/-- State of the backing spreadsheet: the three worksheets, header rows
omitted (data rows only; `_fetch_shift_records` enumerates data rows from
sheet row 2 and `_next_id` skips the header entry of `col_values`). -/
structure SheetState where
  shifts : List ShiftRow
  employees : List Employee
  accruals : List AccrualRow
deriving DecidableEq, Repr

/-- Body of the `_fetch_shift_records` loop: the typed record of one row, at
sheet row `idx`; `today` is `date.today()`. -/
def recordOf (today : Date) (idx : Nat) (row : ShiftRow) : ShiftRecord :=
  { row_index := idx
    shift_id := (cellInt row.id_cell).getD 0
    employee_name := pyStrip row.name_cell
    shift_date := (cellDate row.date_cell).getD today
    overtime_hours := parse_float row.overtime_cell
    shift_hours := parse_float row.hours_cell
    comment := pyStrip row.comment_cell
    submitted_at := cellDateTime row.submitted_cell
    status := pyStrip row.status_cell
    approved_at := cellDateTime row.approved_cell
    manager_comment := pyStrip row.mgr_comment_cell
    manager_name :=
      if pyStrip row.mgr_name_cell = "" then none
      else some (pyStrip row.mgr_name_cell) }

/-- Record list of the rows starting at sheet row `idx`. -/
def fetchFrom (today : Date) (idx : Nat) : List ShiftRow → List ShiftRecord
  | [] => []
  | r :: rs => recordOf today idx r :: fetchFrom today (idx + 1) rs

/-- Source `_fetch_shift_records` (`enumerate(rows, start=2)`). -/
def shiftRecordsOf (s : SheetState) (today : Date) : List ShiftRecord :=
  fetchFrom today 2 s.shifts

/-- Reference date of a record: submission date when present, else the shift
date (the expression repeated in `get_employee_shifts` and
`get_editable_shift`). -/
def referenceDate (r : ShiftRecord) : Date :=
  match r.submitted_at with
  | some t => t.day
  | none => r.shift_date

/-- Source `_next_id`: parseable ids of the nonempty cells of the id column,
`max + 1`, or `1` when there are none. -/
def nextIdOfCells (cells : List Cell) : Int :=
  let numeric := (cells.filter cellNonempty).filterMap cellInt
  match numeric with
  | [] => 1
  | n :: ns => ns.foldl max n + 1

/-- The parseable ids among the nonempty cells of a worksheet id column (the
list `_next_id` maximises over). -/
def parseableIds (cells : List Cell) : List Int :=
  (cells.filter cellNonempty).filterMap cellInt

/-- In-place update of the element at position `i` (the model of a range
update on one sheet row). -/
def listModify {α : Type} : List α → Nat → (α → α) → List α
  | [], _, _ => []
  | a :: l, 0, f => f a :: l
  | a :: l, n + 1, f => a :: listModify l n f

/-- Result of `append_shift`: new store and the assigned id. -/
structure AppendResult where
  state : SheetState
  id : Int
deriving DecidableEq, Repr

/-- Source `append_shift`: assign `_next_id` of the shifts id column, append
the row with status pending and empty decision cells. -/
def append_shift (s : SheetState) (shift : ShiftInput) : AppendResult :=
  let nid := nextIdOfCells (s.shifts.map (·.id_cell))
  let row : ShiftRow :=
    { id_cell := .num (nid : ℚ)
      name_cell := shift.employee_name
      date_cell := .dateStr shift.shift_date
      overtime_cell := .num shift.overtime_hours
      hours_cell := .num shift.shift_hours
      comment_cell := shift.comment
      submitted_cell := .dtStr shift.submitted_at
      status_cell := SHIFT_STATUS_PENDING
      approved_cell := .str ""
      mgr_comment_cell := ""
      mgr_name_cell := shift.manager_name.getD "" }
  ⟨{ s with shifts := s.shifts ++ [row] }, nid⟩

/-- Source `get_employee_shifts`: filter by employee, optionally by pending
status, optionally by the recency threshold `today - days_back` (skipped when
`days_back` is `None` or `0`, Python falsiness). -/
def get_employee_shifts (s : SheetState) (today : Date) (employee_name : String)
    (days_back : Option Int) (only_pending : Bool) : List ShiftRecord :=
  let threshold : Option Date :=
    match days_back with
    | none => none
    | some n => if n = 0 then none else some (today - n)
  (shiftRecordsOf s today).filter fun r =>
    r.employee_name = employee_name &&
    (!only_pending || r.status = SHIFT_STATUS_PENDING) &&
    (match threshold with
     | none => true
     | some th => !(referenceDate r < th))

/-- Source `get_editable_shift`: on the first record with the given id, check
owner, pending status and the recency threshold; any failure (or no such
record) gives `None`. -/
def get_editable_shift (s : SheetState) (today : Date) (employee_name : String)
    (shift_id : Int) (max_days_since_submission : Int) : Option ShiftRecord :=
  let threshold := today - max_days_since_submission
  match (shiftRecordsOf s today).find? (fun r => r.shift_id == shift_id) with
  | none => none
  | some record =>
      if record.employee_name ≠ employee_name then none
      else if record.status ≠ SHIFT_STATUS_PENDING then none
      else if referenceDate record < threshold then none
      else some record

/-- Result of `update_shift_details`: new store and the success flag. -/
structure UpdateResult where
  state : SheetState
  ok : Bool
deriving DecidableEq, Repr

/-- The cell writes of the `C{row}:G{row}` range update in
`update_shift_details`. -/
def writeDetails (updated : ShiftInput) (row : ShiftRow) : ShiftRow :=
  { row with
    date_cell := .dateStr updated.shift_date
    overtime_cell := .num updated.overtime_hours
    hours_cell := .num updated.shift_hours
    comment_cell := updated.comment
    submitted_cell := .dtStr updated.submitted_at }

/-- Source `update_shift_details`: re-validate editability, then write the
C..G cells of the target row. -/
def update_shift_details (s : SheetState) (today : Date) (shift_id : Int)
    (employee_name : String) (updated : ShiftInput)
    (max_days_since_submission : Int) : UpdateResult :=
  match get_editable_shift s today employee_name shift_id
      max_days_since_submission with
  | none => ⟨s, false⟩
  | some editable =>
      ⟨{ s with
          shifts := listModify s.shifts (editable.row_index - 2)
            (writeDetails updated) }, true⟩

/-- Source `fetch_employee_by_name`: first employee with the given name. -/
def fetch_employee_by_name (s : SheetState) (name : String) : Option Employee :=
  s.employees.find? (fun e => e.name == name)

/-- Source `_append_accrual`: look up the employee by name (skip silently when
absent), compute the sums from the shift hours and the employee's current
rates, append one accrual row with the next accrual id. -/
def appendAccrual (s : SheetState) (shift : ShiftRecord) : SheetState :=
  match fetch_employee_by_name s shift.employee_name with
  | none => s
  | some employee =>
      let nid := nextIdOfCells (s.accruals.map (·.id_cell))
      let shift_sum := shift.shift_hours * employee.shift_rate
      let overtime_sum := shift.overtime_hours * employee.overtime_rate
      let row : AccrualRow :=
        { id_cell := .num (nid : ℚ)
          employee_name := employee.name
          date_cell := .dateStr shift.shift_date
          overtime_hours := shift.overtime_hours
          shift_rate := employee.shift_rate
          overtime_rate := employee.overtime_rate
          shift_sum := shift_sum
          overtime_sum := overtime_sum
          total_sum := shift_sum + overtime_sum }
      { s with accruals := s.accruals ++ [row] }

/-- Result of `update_shift_status`: the returned record, the `changed` flag
and the new store. -/
structure DecisionResult where
  record : Option ShiftRecord
  changed : Bool
  state : SheetState
deriving DecidableEq, Repr

/-- The cell writes of the `H{row}:K{row}` range update in
`update_shift_status`. -/
def writeDecision (status : String) (approved_at : DateTime) (comment : String)
    (manager_name : String) (row : ShiftRow) : ShiftRow :=
  { row with
    status_cell := status
    approved_cell := .dtStr approved_at
    mgr_comment_cell := comment
    mgr_name_cell := manager_name }

/-- The record returned by `update_shift_status` after a successful write
(built in memory from the fetched target). -/
def decidedRecord (target : ShiftRecord) (status : String)
    (manager_name comment : String) (approved_at : DateTime) : ShiftRecord :=
  { target with
    status := status
    approved_at := some approved_at
    manager_comment := comment
    manager_name := some manager_name }

/-- Source `update_shift_status` (the spec's `decide_shift`): re-read the
records, find the first with the given id; a missing record gives
`(None, False)`, a non-pending record gives `(record, False)` with no write;
otherwise write the decision cells, and on approval append the accrual. -/
def update_shift_status (s : SheetState) (today : Date) (shift_id : Int)
    (status : String) (manager_name : String) (comment : String)
    (approved_at : DateTime) : DecisionResult :=
  match (shiftRecordsOf s today).find? (fun r => r.shift_id == shift_id) with
  | none => ⟨none, false, s⟩
  | some target =>
      if target.status ≠ SHIFT_STATUS_PENDING then ⟨some target, false, s⟩
      else
        let s1 : SheetState :=
          { s with
            shifts := listModify s.shifts (target.row_index - 2)
              (writeDecision status approved_at comment manager_name) }
        let updated := decidedRecord target status manager_name comment
          approved_at
        let s2 :=
          if status = SHIFT_STATUS_APPROVED then appendAccrual s1 updated
          else s1
        ⟨some updated, true, s2⟩

/-- Values stored in a session's FSM data dictionary (aiogram
`FSMContext.update_data`).  `vDate d` stands for the ISO string
`date.isoformat()` of `d` (kept symbolic, as for cells); `vNone` is Python
`None`. -/
inductive FValue where
  | vStr (s : String)
  | vRat (q : ℚ)
  | vInt (n : Int)
  | vDate (d : Date)
  | vNone
deriving DecidableEq, Repr

/-- The accumulated form fields of a session: a string-keyed dictionary. -/
def FData := List (String × FValue)

instance : DecidableEq FData := by
  unfold FData
  infer_instance

/-- Dictionary lookup (first binding wins; `fdSet` keeps keys unique). -/
def fdGet (d : FData) (k : String) : Option FValue :=
  match d with
  | [] => none
  | (a, v) :: t => if a = k then some v else fdGet t k

/-- Removal of a key. -/
def fdRemove (d : FData) (k : String) : FData :=
  match d with
  | [] => []
  | (a, v) :: t => if a = k then fdRemove t k else (a, v) :: fdRemove t k

/-- Dictionary write of one key (Python `dict` update semantics). -/
def fdSet (d : FData) (k : String) (v : FValue) : FData :=
  (k, v) :: fdRemove d k

/-- Model of `FSMContext.update_data(**kwargs)`: merge the keyword pairs into
the existing data. -/
def fdUpdate (d : FData) (kvs : List (String × FValue)) : FData :=
  kvs.foldl (fun acc kv => fdSet acc kv.1 kv.2) d

/-- Conversation states (aiogram `StatesGroup`s of `states.py`); `idle` is the
cleared state `None`. -/
inductive ConvState where
  | idle
  | shiftFormDate
  | shiftFormShiftHours
  | shiftFormOvertimeHours
  | shiftFormComment
  | shiftEditSelect
  | shiftEditDate
  | shiftEditShiftHours
  | shiftEditOvertimeHours
  | shiftEditComment
  | managerComment
deriving DecidableEq, Repr

/-- One chat session: conversation state and accumulated form fields
(`FSMContext` for one user). -/
structure Session where
  conv : ConvState
  data : FData
deriving DecidableEq

/-- The cleared session (`state.clear()` = state `None`, data `{}`). -/
def Session.cleared : Session := ⟨.idle, []⟩

/-- Source `AuthorizationRegistry`: mapping from chat id to the authenticated
employee. -/
def Registry := List (Int × Employee)

instance : DecidableEq Registry := by
  unfold Registry
  infer_instance

/-- Source `AuthorizationRegistry.get_employee`. -/
def regGet (reg : Registry) (telegram_id : Int) : Option Employee :=
  match reg with
  | [] => none
  | (i, e) :: t => if i = telegram_id then some e else regGet t telegram_id

/-- Source `keyboards.SKIP_COMMENT`. -/
def SKIP_COMMENT : String := "Пропустити"

/-- Denial text of `ensure_authorized`. -/
def MSG_AUTH_REQUIRED : String := "Спочатку авторизуйся, поділившись номером."

/-- Denial text of the manager-decision callback. -/
def MSG_NO_RIGHTS : String := "Немає прав."

/-- Prompt of `request_shift_date`. -/
def MSG_ASK_DATE : String := "Вкажи дату зміни у форматі ДД.ММ.РРРР."

/-- Message of `start_editing_shift` when no shift is editable. -/
def MSG_NO_EDITABLE : String :=
  "Нет заявок для редактирования. Доступно только для заявок, поданных не позже 7 днів тому та зі статусом «Очікує»."

/-- Listing message of `start_editing_shift`.  Rendering the per-shift lines is
display glue (out of the spec's scope); the model keeps the ids, which is
enough to distinguish listings. -/
def msgEditList (shifts : List ShiftRecord) : String :=
  "Доступні заявки для редагування: " ++ toString (shifts.map (·.shift_id))

/-- Prompt of the manager-decision callback. -/
def MSG_ASK_DECISION_COMMENT : String :=
  "Додай коментар до рішення (або натисни «Пропустити»)."

/-- Confirmation of `handle_shift_comment`. -/
def msgShiftSaved (shift_id : Int) : String :=
  "Зміна #" ++ toString shift_id ++ " збережена та очікує підтвердження."

/-- Message of `finalize_shift_edit` when the selected id is gone from the
session data. -/
def MSG_EDIT_LOST : String := "Не вдалося знайти заявку. Спробуй ще раз."

/-- Message of `finalize_shift_edit` when the stored date cannot be read
back. -/
def MSG_EDIT_SAVE_FAIL : String := "Не вдалося зберегти зміну — повтори спробу."

/-- Failure message of `finalize_shift_edit`. -/
def MSG_EDIT_NOT_UPDATED : String :=
  "Не вдалося оновити заявку. Вона могла бути підтверджена або минуло більше 7 днів."

/-- Success message of `finalize_shift_edit`. -/
def msgEditUpdated (shift_id : Int) : String :=
  "Заявка #" ++ toString shift_id ++ " оновлена. Очікує підтвердження."

/-- Message of `finalize_manager_decision` for a vanished record. -/
def MSG_DECISION_NOT_FOUND : String := "Заявку не знайдено."

/-- Message of `finalize_manager_decision` for an already-decided record. -/
def msgAlreadyDecided (shift_id : Int) (status : String) : String :=
  "Заявка #" ++ toString shift_id ++ " вже має статус «" ++ status ++ "»."

/-- Success message of `finalize_manager_decision`. -/
def msgDecided (shift_id : Int) (status : String) : String :=
  "Статус заявки #" ++ toString shift_id ++ " змінено на «" ++ status ++ "»."

/-- Result of one handler invocation: the session, store and registry after
it, and the texts answered (keyboard markup is transport glue, out of the
spec's scope). -/
structure HandlerResult where
  session : Session
  store : SheetState
  registry : Registry
  replies : List String
deriving DecidableEq

/-- Python `float(value)` on an FSM data value (`None` on `TypeError` or
`ValueError`; `vDate` is an ISO string, which `float` rejects). -/
def fvFloat (v : FValue) : Option ℚ :=
  match v with
  | .vRat q => some q
  | .vInt n => some (n : ℚ)
  | .vStr s => pyFloatFinite s
  | .vDate _ => none
  | .vNone => none

/-- Python `int(value)` on an FSM data value. -/
def fvInt (v : FValue) : Option Int :=
  match v with
  | .vInt n => some n
  | .vRat q => some (ratTrunc q)
  | .vStr s => pyIntOfString s
  | .vDate _ => none
  | .vNone => none

/-- Python `date.fromisoformat(value)` on an FSM data value (only the symbolic
ISO string parses; everything else raises). -/
def fvIsoDate (v : FValue) : Option Date :=
  match v with
  | .vDate d => some d
  | _ => none

/-- FSM data value of an `Optional[str]` keyword argument. -/
def fvOfOptStr (o : Option String) : FValue :=
  match o with
  | some s => .vStr s
  | none => .vNone

/-- Source `request_shift_date` (entry of the shift-submission flow, message
"Добавить новую смену"): after `ensure_authorized`, set the date state and
merge the employee keys into the session data.  The data of a previous flow is
not cleared. -/
def request_shift_date (reg : Registry) (store : SheetState) (sess : Session)
    (uid : Int) : HandlerResult :=
  match regGet reg uid with
  | none => ⟨sess, store, reg, [MSG_AUTH_REQUIRED]⟩
  | some employee =>
      ⟨⟨.shiftFormDate,
         fdUpdate sess.data
           [("employee_name", .vStr employee.name),
            ("manager", fvOfOptStr employee.manager_name)]⟩,
        store, reg, [MSG_ASK_DATE]⟩

/-- Source `handle_shift_comment` (completion of the shift-submission flow).
Returns `none` where the handler raises an uncaught exception (missing or
ill-typed data keys).  On authorization failure the handler returns after the
denial without clearing the session. -/
def handle_shift_comment (reg : Registry) (store : SheetState) (sess : Session)
    (uid : Int) (text : String) (now : DateTime) : Option HandlerResult :=
  let data := sess.data
  match regGet reg uid with
  | none => some ⟨sess, store, reg, [MSG_AUTH_REQUIRED]⟩
  | some employee =>
      let comment := if text = SKIP_COMMENT then "" else text
      match (fdGet data "shift_date").bind fvIsoDate with
      | none => none
      | some shift_date =>
          match (fdGet data "shift_hours").bind fvFloat,
              (fdGet data "overtime_hours").bind fvFloat with
          | some sh, some oh =>
              let shift : ShiftInput :=
                { employee_name := employee.name
                  shift_date := shift_date
                  shift_hours := sh
                  overtime_hours := oh
                  comment := comment
                  submitted_at := now
                  manager_name := employee.manager_name }
              let res := append_shift store shift
              some ⟨Session.cleared, res.state, reg, [msgShiftSaved res.id]⟩
          | _, _ => none

/-- Source `start_editing_shift` (entry of the shift-edit flow, message
"Редактировать поданую смену"): after `ensure_authorized`, clear the session,
list the editable shifts; with none, stay cleared, else enter the selection
state. -/
def start_editing_shift (reg : Registry) (store : SheetState) (sess : Session)
    (uid : Int) (today : Date) : HandlerResult :=
  match regGet reg uid with
  | none => ⟨sess, store, reg, [MSG_AUTH_REQUIRED]⟩
  | some employee =>
      let shifts := get_employee_shifts store today employee.name (some 7) true
      if shifts.isEmpty then ⟨Session.cleared, store, reg, [MSG_NO_EDITABLE]⟩
      else ⟨⟨.shiftEditSelect, []⟩, store, reg, [msgEditList shifts]⟩

/-- Source `handle_manager_decision` (entry of the manager-decision flow, an
`approve:{id}` or `decline:{id}` callback; the two components of the callback
data are passed split).  An unauthenticated or non-manager user gets the
rights denial; otherwise the comment state is set and the action keys are
merged into the session data, which is not cleared. -/
def handle_manager_decision (reg : Registry) (store : SheetState)
    (sess : Session) (uid : Int) (action : String) (shift_id : Int) :
    HandlerResult :=
  match regGet reg uid with
  | none => ⟨sess, store, reg, [MSG_NO_RIGHTS]⟩
  | some employee =>
      if ¬employee.isManager then ⟨sess, store, reg, [MSG_NO_RIGHTS]⟩
      else
        ⟨⟨.managerComment,
           fdUpdate sess.data
             [("manager_action", .vStr action), ("shift_id", .vInt shift_id)]⟩,
          store, reg, [MSG_ASK_DECISION_COMMENT]⟩

/-- Source `finalize_shift_edit` (completion of the shift-edit flow).  The
authorization failure clears the session after the denial of
`ensure_authorized`.  The first `try` catches a missing or unusable
`edit_shift_id` (KeyError, ValueError, TypeError); the second catches a
missing or textually invalid `edit_shift_date` (KeyError, ValueError) but not
an ill-typed one (TypeError, modelled `none`). -/
def finalize_shift_edit (reg : Registry) (store : SheetState) (sess : Session)
    (uid : Int) (text : String) (now : DateTime) (today : Date) :
    Option HandlerResult :=
  match regGet reg uid with
  | none => some ⟨Session.cleared, store, reg, [MSG_AUTH_REQUIRED]⟩
  | some employee =>
      let data := sess.data
      match (fdGet data "edit_shift_id").bind fvInt with
      | none => some ⟨Session.cleared, store, reg, [MSG_EDIT_LOST]⟩
      | some shift_id =>
          let comment := if text = SKIP_COMMENT then "" else text
          match fdGet data "edit_shift_date" with
          | none => some ⟨Session.cleared, store, reg, [MSG_EDIT_SAVE_FAIL]⟩
          | some (.vStr _) =>
              some ⟨Session.cleared, store, reg, [MSG_EDIT_SAVE_FAIL]⟩
          | some (.vDate shift_date) =>
              match (fdGet data "edit_shift_hours").bind fvFloat,
                  (fdGet data "edit_overtime_hours").bind fvFloat with
              | some sh, some oh =>
                  let shift : ShiftInput :=
                    { employee_name := employee.name
                      shift_date := shift_date
                      shift_hours := sh
                      overtime_hours := oh
                      comment := comment
                      submitted_at := now
                      manager_name := employee.manager_name }
                  let res := update_shift_details store today shift_id
                    employee.name shift 7
                  some ⟨Session.cleared, res.state, reg,
                    [if res.ok then msgEditUpdated shift_id
                     else MSG_EDIT_NOT_UPDATED]⟩
              | _, _ => none
          | some _ => none

/-- Source `finalize_manager_decision` (completion of the manager-decision
flow).  An unauthenticated user gets the denial of `ensure_authorized` and the
session is cleared; an authenticated non-manager gets the session cleared with
no reply at all.  `int(data["shift_id"])` and `data["manager_action"]` raise
uncaught exceptions when missing (modelled `none`); the action is compared to
"approve", any other value deciding "declined". -/
def finalize_manager_decision (reg : Registry) (store : SheetState)
    (sess : Session) (uid : Int) (text : String) (now : DateTime)
    (today : Date) : Option HandlerResult :=
  match regGet reg uid with
  | none => some ⟨Session.cleared, store, reg, [MSG_AUTH_REQUIRED]⟩
  | some employee =>
      if ¬employee.isManager then some ⟨Session.cleared, store, reg, []⟩
      else
        let data := sess.data
        match (fdGet data "shift_id").bind fvInt, fdGet data "manager_action"
            with
        | some shift_id, some action =>
            let comment := if text = SKIP_COMMENT then "" else text
            let status :=
              if action = FValue.vStr "approve" then SHIFT_STATUS_APPROVED
              else SHIFT_STATUS_DECLINED
            let res := update_shift_status store today shift_id status
              employee.name comment now
            some ⟨Session.cleared, res.state, reg,
              [match res.record, res.changed with
               | none, _ => MSG_DECISION_NOT_FOUND
               | some updated, false => msgAlreadyDecided shift_id
                   updated.status
               | some _, true => msgDecided shift_id status]⟩
        | _, _ => none

/-- Claim-side phone rewrite, written from the claim's words: a 10-digit
string starting with the national prefix "0" is rewritten with the country
code prefix "38"; a string already starting with the country code "380", and
any other digit string, passes through unchanged. -/
def specPhoneRewrite (digits : List Char) : List Char :=
  if startsWithNat0 digits && digits.length == 10
  then '3' :: '8' :: digits
  else digits

/-- Concrete staff employee for witnesses. -/
def wEmployeeA : Employee :=
  { name := "Анна"
    phone := "380501234567"
    role := "Співробітник"
    shift_rate := 100
    overtime_rate := 150
    manager_name := some "Борис" }

/-- Concrete manager employee for witnesses. -/
def wManagerB : Employee :=
  { name := "Борис"
    phone := "380501111111"
    role := "Керівник"
    shift_rate := 0
    overtime_rate := 0
    manager_name := none }

/-- Concrete pending shift row for witnesses. -/
def wRowPending : ShiftRow :=
  { id_cell := .num 1
    name_cell := "Анна"
    date_cell := .dateStr 739000
    overtime_cell := .num 2
    hours_cell := .num 8
    comment_cell := ""
    submitted_cell := .dtStr ⟨739000, 600⟩
    status_cell := "Очікує"
    approved_cell := .str ""
    mgr_comment_cell := ""
    mgr_name_cell := "Борис" }

/-- Concrete store for witnesses. -/
def wStore : SheetState :=
  { shifts := [wRowPending]
    employees := [wEmployeeA, wManagerB]
    accruals := [] }

/-- The record `_fetch_shift_records` produces for `wRowPending`. -/
def wRecPending : ShiftRecord :=
  { row_index := 2
    shift_id := 1
    employee_name := "Анна"
    shift_date := 739000
    overtime_hours := 2
    shift_hours := 8
    comment := ""
    submitted_at := some ⟨739000, 600⟩
    status := "Очікує"
    approved_at := none
    manager_comment := ""
    manager_name := some "Борис" }

/-- Concrete shift row with malformed id, date and hours cells. -/
def c7row : ShiftRow :=
  { id_cell := .str "abc"
    name_cell := "Анна"
    date_cell := .str "xyz"
    overtime_cell := .str "bad"
    hours_cell := .str "bad"
    comment_cell := ""
    submitted_cell := .str ""
    status_cell := "Очікує"
    approved_cell := .str ""
    mgr_comment_cell := ""
    mgr_name_cell := "" }

/-- Store holding only the malformed row. -/
def c7store : SheetState :=
  { shifts := [c7row], employees := [], accruals := [] }

/-- Concrete shift input whose comment carries surrounding whitespace. -/
def c6input : ShiftInput :=
  { employee_name := "Анна"
    shift_date := 739000
    shift_hours := 8
    overtime_hours := 2
    comment := " late"
    submitted_at := ⟨739000, 600⟩
    manager_name := some "Борис" }

/-- Concrete replacement values for an edit of the witness shift. -/
def wEditInput : ShiftInput :=
  { employee_name := "Анна"
    shift_date := 739001
    shift_hours := 9
    overtime_hours := 1
    comment := "upd"
    submitted_at := ⟨739003, 700⟩
    manager_name := some "Борис" }

/-- The empty store. -/
def emptyStore : SheetState := ⟨[], [], []⟩

/-- Session in the middle of the shift-edit flow, with an accumulated field. -/
def sessMidEdit : Session :=
  ⟨.shiftEditDate, [("edit_shift_id", .vInt 5)]⟩

/-- Session at the comment step of the submission flow, with all accumulated
fields present. -/
def sessAtComment : Session :=
  ⟨.shiftFormComment,
    [("employee_name", .vStr "Анна"), ("manager", .vStr "Борис"),
     ("shift_date", .vDate 739000), ("shift_hours", .vRat 8),
     ("overtime_hours", .vRat 2)]⟩

/-- Registry authenticating chat id 1 as the staff employee. -/
def regStaff : Registry := [(1, wEmployeeA)]

/-- Registry authenticating chat id 1 as the manager. -/
def regManager : Registry := [(1, wManagerB)]

theorem listModify_length {α : Type} (l : List α) (i : Nat) (f : α → α) :
    (listModify l i f).length = l.length := by
  induction l generalizing i with
  | nil => rfl
  | cons a t ih =>
      cases i with
      | zero => rfl
      | succ n => simpa [listModify] using ih n

theorem getElem?_listModify_self {α : Type} (l : List α) (i : Nat)
    (f : α → α) : (listModify l i f)[i]? = (l[i]?).map f := by
  induction l generalizing i with
  | nil => cases i <;> simp [listModify]
  | cons a t ih =>
      cases i with
      | zero => simp [listModify]
      | succ n => simpa [listModify] using ih n

theorem getElem?_listModify_ne {α : Type} (l : List α) (i j : Nat)
    (f : α → α) (h : j ≠ i) : (listModify l i f)[j]? = l[j]? := by
  induction l generalizing i j with
  | nil => cases i <;> simp [listModify]
  | cons a t ih =>
      cases i with
      | zero =>
          cases j with
          | zero => exact absurd rfl h
          | succ m => simp [listModify]
      | succ n =>
          cases j with
          | zero => simp [listModify]
          | succ m =>
              simpa [listModify] using ih n m (fun e => h (by omega))

theorem find?_eq_some_iff_position {α : Type} (p : α → Bool) (L : List α)
    (x : α) :
    L.find? p = some x ↔
      ∃ i : Nat, L[i]? = some x ∧ p x = true ∧
        ∀ j, j < i → ∀ y, L[j]? = some y → p y = false := by
  induction L with
  | nil => simp
  | cons a t ih =>
      by_cases ha : p a = true
      · rw [List.find?_cons_of_pos t ha]
        constructor
        · intro h
          injection h with h
          subst h
          refine ⟨0, by simp, ha, fun j hj y _ => absurd hj (by omega)⟩
        · rintro ⟨i, hget, hx, hpre⟩
          cases i with
          | zero =>
              simp only [List.getElem?_cons_zero] at hget
              injection hget with hget
              simp [hget]
          | succ n =>
              have h0 := hpre 0 (by omega) a (by simp)
              rw [ha] at h0
              cases h0
      · have ha' : p a = false := by
          cases h : p a
          · rfl
          · exact absurd h ha
        rw [List.find?_cons_of_neg t ha]
        rw [ih]
        constructor
        · rintro ⟨i, hget, hx, hpre⟩
          refine ⟨i + 1, by simpa using hget, hx, ?_⟩
          intro j hj y hy
          cases j with
          | zero =>
              simp only [List.getElem?_cons_zero] at hy
              injection hy with hy
              subst hy
              exact ha'
          | succ m =>
              exact hpre m (by omega) y (by simpa using hy)
        · rintro ⟨i, hget, hx, hpre⟩
          cases i with
          | zero =>
              simp only [List.getElem?_cons_zero] at hget
              injection hget with hget
              subst hget
              exact absurd ha' (by simp [hx])
          | succ n =>
              refine ⟨n, by simpa using hget, hx, ?_⟩
              intro j hj y hy
              exact hpre (j + 1) (by omega) y (by simpa using hy)

theorem fetchFrom_getElem? (today : Date) (idx : Nat) (l : List ShiftRow)
    (j : Nat) :
    (fetchFrom today idx l)[j]? = (l[j]?).map (recordOf today (idx + j)) := by
  induction l generalizing idx j with
  | nil => cases j <;> simp [fetchFrom]
  | cons r rs ih =>
      cases j with
      | zero => simp [fetchFrom]
      | succ m =>
          have h := ih (idx + 1) m
          have harith : idx + 1 + m = idx + (m + 1) := by omega
          rw [harith] at h
          simpa [fetchFrom] using h

theorem fetchFrom_length (today : Date) (idx : Nat) (l : List ShiftRow) :
    (fetchFrom today idx l).length = l.length := by
  induction l generalizing idx with
  | nil => rfl
  | cons r rs ih => simpa [fetchFrom] using ih (idx + 1)

theorem fetchFrom_append_singleton (today : Date) (idx : Nat)
    (l : List ShiftRow) (r : ShiftRow) :
    fetchFrom today idx (l ++ [r]) =
      fetchFrom today idx l ++ [recordOf today (idx + l.length) r] := by
  induction l generalizing idx with
  | nil => simp [fetchFrom]
  | cons a t ih =>
      calc fetchFrom today idx ((a :: t) ++ [r])
          = recordOf today idx a :: fetchFrom today (idx + 1) (t ++ [r]) :=
            rfl
        _ = recordOf today idx a ::
              (fetchFrom today (idx + 1) t ++
                [recordOf today (idx + 1 + t.length) r]) := by
            rw [ih (idx + 1)]
        _ = fetchFrom today idx (a :: t) ++
              [recordOf today (idx + (a :: t).length) r] := by
            rw [show idx + 1 + t.length = idx + (a :: t).length from by
              simp [List.length_cons]
              omega]
            rfl

theorem le_foldl_max (l : List Int) (a : Int) : a ≤ l.foldl max a := by
  induction l generalizing a with
  | nil => exact le_refl a
  | cons b t ih =>
      calc a ≤ max a b := le_max_left a b
      _ ≤ t.foldl max (max a b) := ih (max a b)

theorem mem_le_foldl_max (l : List Int) (a b : Int) (h : b ∈ l) :
    b ≤ l.foldl max a := by
  induction l generalizing a with
  | nil => cases h
  | cons c t ih =>
      rcases List.mem_cons.mp h with rfl | h'
      · calc b ≤ max a b := le_max_right a b
        _ ≤ t.foldl max (max a b) := le_foldl_max t (max a b)
      · exact ih (max a c) h'

theorem foldl_max_mem (l : List Int) (a : Int) :
    l.foldl max a = a ∨ l.foldl max a ∈ l := by
  induction l generalizing a with
  | nil => exact Or.inl rfl
  | cons b t ih =>
      rcases ih (max a b) with h | h
      · rcases max_cases a b with ⟨he, _⟩ | ⟨he, _⟩
        · rw [List.foldl_cons, h, he]
          exact Or.inl rfl
        · rw [List.foldl_cons, h, he]
          exact Or.inr (List.mem_cons_self b t)
      · exact Or.inr (List.mem_cons_of_mem b h)

theorem isPyWS_isDigit_false (c : Char) (h : isPyWS c = true) :
    c.isDigit = false := by
  simp only [isPyWS, Bool.or_eq_true, decide_eq_true_eq] at h
  rcases h with ((((h | h) | h) | h) | h) | h <;> subst h <;> decide

theorem isDigit_not_isPyWS (c : Char) (h : c.isDigit = true) :
    isPyWS c = false := by
  cases hw : isPyWS c
  · rfl
  · have hd := isPyWS_isDigit_false c hw
    rw [h] at hd
    cases hd

theorem commaToDot_eq_self (c : Char) (h : c ≠ ',') : commaToDot c = c := by
  simp [commaToDot, h]

theorem commaToDot_of_digit (c : Char) (h : c.isDigit = true) :
    commaToDot c = c := by
  refine commaToDot_eq_self c fun e => ?_
  subst e
  cases h

theorem isDigit_commaToDot (c : Char) :
    (commaToDot c).isDigit = c.isDigit := by
  by_cases h : c = ','
  · subst h
    decide
  · rw [commaToDot_eq_self c h]

theorem isPyWS_commaToDot (c : Char) : isPyWS (commaToDot c) = isPyWS c := by
  by_cases h : c = ','
  · subst h
    decide
  · rw [commaToDot_eq_self c h]

theorem takeWhile_map_commaToDot (l : List Char) :
    (l.map commaToDot).takeWhile Char.isDigit =
      (l.takeWhile Char.isDigit).map commaToDot := by
  induction l with
  | nil => rfl
  | cons c t ih =>
      simp only [List.map_cons, List.takeWhile_cons, isDigit_commaToDot]
      cases hc : c.isDigit
      · simp
      · simp [ih]

theorem dropWhile_map_commaToDot (l : List Char) :
    (l.map commaToDot).dropWhile Char.isDigit =
      (l.dropWhile Char.isDigit).map commaToDot := by
  induction l with
  | nil => rfl
  | cons c t ih =>
      simp only [List.map_cons, List.dropWhile_cons, isDigit_commaToDot]
      cases hc : c.isDigit
      · simp
      · simp [ih]

theorem map_commaToDot_of_all_digits (l : List Char)
    (h : ∀ c ∈ l, c.isDigit = true) : l.map commaToDot = l := by
  induction l with
  | nil => rfl
  | cons c t ih =>
      simp only [List.map_cons]
      rw [commaToDot_of_digit c (h c (List.mem_cons_self c t)),
        ih fun x hx => h x (List.mem_cons_of_mem c hx)]

theorem mem_takeWhile_digit (l : List Char) (c : Char)
    (h : c ∈ l.takeWhile Char.isDigit) : c.isDigit = true := by
  induction l with
  | nil => cases h
  | cons a t ih =>
      rw [List.takeWhile_cons] at h
      cases ha : a.isDigit
      · rw [ha] at h
        cases h
      · rw [ha] at h
        rcases List.mem_cons.mp h with rfl | h'
        · exact ha
        · exact ih h'

theorem dropWhile_eq_self_of_all_false {α : Type} (p : α → Bool)
    (l : List α) (h : ∀ c ∈ l, p c = false) : l.dropWhile p = l := by
  cases l with
  | nil => rfl
  | cons a t =>
      rw [List.dropWhile_cons, h a (List.mem_cons_self a t)]
      simp

theorem stripChars_eq_self (l : List Char)
    (h : ∀ c ∈ l, isPyWS c = false) : stripChars l = l := by
  unfold stripChars
  rw [dropWhile_eq_self_of_all_false isPyWS l h]
  rw [dropWhile_eq_self_of_all_false isPyWS l.reverse
    (fun c hc => h c (List.mem_reverse.mp hc))]
  exact List.reverse_reverse l

theorem dropWhile_map_pres (f : Char → Char) (p : Char → Bool)
    (hf : ∀ c, p (f c) = p c) (l : List Char) :
    (l.map f).dropWhile p = (l.dropWhile p).map f := by
  induction l with
  | nil => rfl
  | cons c t ih =>
      simp only [List.map_cons, List.dropWhile_cons, hf]
      cases hc : p c
      · simp
      · simp [ih]

theorem stripChars_map_commaToDot (l : List Char) :
    stripChars (l.map commaToDot) = (stripChars l).map commaToDot := by
  unfold stripChars
  rw [dropWhile_map_pres commaToDot isPyWS isPyWS_commaToDot l]
  rw [← List.map_reverse]
  rw [dropWhile_map_pres commaToDot isPyWS isPyWS_commaToDot]
  rw [← List.map_reverse]

theorem specBodyVal_no_ws (body : List Char) (v : ℚ)
    (h : specBodyVal body = some v) :
    ∀ c ∈ body, isPyWS c = false := by
  intro c hc
  rw [← List.takeWhile_append_dropWhile (p := Char.isDigit) (l := body)]
    at hc
  rcases List.mem_append.mp hc with hc | hc
  · exact isDigit_not_isPyWS c (mem_takeWhile_digit body c hc)
  · simp only [specBodyVal] at h
    cases hrest : body.dropWhile Char.isDigit with
    | nil =>
        rw [hrest] at hc
        cases hc
    | cons sep frac =>
        rw [hrest] at h hc
        have h2 : (if (sep = ',' ∨ sep = '.') ∧ frac.all Char.isDigit ∧
            ¬((body.takeWhile Char.isDigit).isEmpty ∧ frac.isEmpty) then
              some ((digitsVal (body.takeWhile Char.isDigit) : ℚ) +
                fracVal frac)
            else none) = some v := h
        by_cases hcond : (sep = ',' ∨ sep = '.') ∧ frac.all Char.isDigit ∧
            ¬((body.takeWhile Char.isDigit).isEmpty ∧ frac.isEmpty)
        · rcases List.mem_cons.mp hc with rfl | hcf
          · rcases hcond.1 with rfl | rfl <;> decide
          · exact isDigit_not_isPyWS c
              ((List.all_eq_true.mp hcond.2.1) c hcf)
        · rw [if_neg hcond] at h2
          cases h2

theorem specDecimalValue_no_ws (cs : List Char) (v : ℚ)
    (h : specDecimalValue cs = some v) :
    ∀ c ∈ cs, isPyWS c = false := by
  intro c hc
  cases cs with
  | nil => cases hc
  | cons a t =>
      simp only [specDecimalValue, signSplit] at h
      by_cases hp : a = '+'
      · rw [if_pos hp] at h
        rcases List.mem_cons.mp hc with rfl | hct
        · subst hp
          decide
        · simp only [Option.map_eq_some'] at h
          obtain ⟨w, hw, _⟩ := h
          exact specBodyVal_no_ws t w hw c hct
      · rw [if_neg hp] at h
        by_cases hm : a = '-'
        · rw [if_pos hm] at h
          rcases List.mem_cons.mp hc with rfl | hct
          · subst hm
            decide
          · simp only [Option.map_eq_some'] at h
            obtain ⟨w, hw, _⟩ := h
            exact specBodyVal_no_ws t w hw c hct
        · rw [if_neg hm] at h
          simp only [Option.map_eq_some'] at h
          obtain ⟨w, hw, _⟩ := h
          exact specBodyVal_no_ws (a :: t) w hw c hc

theorem startsWithNat0_shape (cs : List Char) (h : startsWithNat0 cs = true) :
    ∃ t, cs = '0' :: t := by
  cases cs with
  | nil => cases h
  | cons c t =>
      simp only [startsWithNat0, decide_eq_true_eq] at h
      exact ⟨t, by rw [h]⟩

/-- C8 (corrected): phone sanitization extracts the digits, rewrites a
10-digit national-prefix string with the country code, and otherwise passes
the digit string through — except that an empty digit string yields `None`
rather than an empty pass-through. -/
theorem claim_C8 (s : String) :
    (digitsOnly s ≠ [] →
        sanitize_phone s = some (String.mk (specPhoneRewrite (digitsOnly s)))) ∧
    (digitsOnly s = [] → sanitize_phone s = none) := by
  constructor
  · intro h
    have hne : s.data.isEmpty = false := by
      cases hd : s.data with
      | nil =>
          exfalso
          apply h
          unfold digitsOnly
          rw [hd]
          rfl
      | cons a t => rfl
    unfold sanitize_phone specPhoneRewrite
    simp only [hne, Bool.false_eq_true, if_false]
    by_cases hc : (startsWithNat0 (digitsOnly s) &&
        (digitsOnly s).length == 10) = true
    · rw [if_pos hc]
      obtain ⟨t0, ht0⟩ :=
        startsWithNat0_shape (digitsOnly s) (Bool.and_elim_left hc)
      rw [ht0]
      simp [startsWith380]
    · rw [if_neg hc]
      by_cases h380 : startsWith380 (digitsOnly s) = true
      · rw [if_pos h380]
      · rw [if_neg h380]
        have hemp : (digitsOnly s).isEmpty = false := by
          cases hd : digitsOnly s with
          | nil => exact absurd hd h
          | cons a t => rfl
        simp only [hemp, Bool.false_eq_true, if_false]
  · intro h
    unfold sanitize_phone
    by_cases he : s.data.isEmpty = true
    · rw [if_pos he]
    · rw [if_neg he]
      rw [h]
      simp [startsWithNat0, startsWith380]

/-- Witness for C8: the spec's example "0501234567" is rewritten to
"380501234567", and a digit-free input yields `None`. -/
theorem claim_C8_witness :
    sanitize_phone
        (String.mk [ '0', '5', '0', '1', '2', '3', '4', '5', '6', '7']) =
      some (String.mk (specPhoneRewrite (digitsOnly
        (String.mk [ '0', '5', '0', '1', '2', '3', '4', '5', '6', '7'])))) ∧
    sanitize_phone (String.mk [ 'x', 'y']) = none :=
  ⟨(claim_C8
      (String.mk [ '0', '5', '0', '1', '2', '3', '4', '5', '6', '7'])).1
      (by decide),
    (claim_C8 (String.mk [ 'x', 'y'])).2 (by decide)⟩

/-- Counterexample for C8 as stated: on an input with no digits the digit
string is empty, and sanitization returns `None` instead of passing the
(empty) digit string through unchanged. -/
theorem claim_C8_counterexample :
    digitsOnly (String.mk [ 'x', 'y']) = [] ∧
      sanitize_phone (String.mk [ 'x', 'y']) ≠
        some (String.mk (digitsOnly (String.mk [ 'x', 'y']))) := by
  constructor
  · decide
  · decide

/-- C7 (corrected): on a backing row with unparseable id, date and hours
cells, the gateway's read path substitutes defaults — id 0, date `today`,
hours 0.0 — and serves the row, rather than propagating the malformation as
an error. -/
theorem claim_C7 (s : SheetState) (today : Date) (i : Nat) (row : ShiftRow)
    (hrow : s.shifts[i]? = some row)
    (hid : cellInt row.id_cell = none)
    (hdate : cellDate row.date_cell = none)
    (hhours : cellFloat row.hours_cell = none) :
    ∃ r, (shiftRecordsOf s today)[i]? = some r ∧ r.shift_id = 0 ∧
      r.shift_date = today ∧ r.shift_hours = 0 ∧
      r.employee_name = pyStrip row.name_cell := by
  refine ⟨recordOf today (2 + i) row, ?_, ?_, ?_, ?_, rfl⟩
  · rw [shiftRecordsOf, fetchFrom_getElem?, hrow]
    rfl
  · simp [recordOf, hid]
  · simp [recordOf, hdate]
  · simp [recordOf, parse_float, hhours]

/-- Witness for C7: the malformed row of `c7store` is served with the
defaults. -/
theorem claim_C7_witness :
    c7store.shifts[0]? = some c7row ∧
      (∃ r, (shiftRecordsOf c7store 100)[0]? = some r ∧ r.shift_id = 0 ∧
        r.shift_date = 100 ∧ r.shift_hours = 0 ∧
        r.employee_name = pyStrip c7row.name_cell) :=
  ⟨by decide,
    claim_C7 c7store 100 0 c7row (by decide) (by decide) (by decide)
      (by decide)⟩

/-- Counterexample for C7 as stated: the row with unparseable id, date and
hours cells does not make the read fail; it is returned with substituted
defaults, the date default even being fabricated from the current day (the
same row reads back differently on different days). -/
theorem claim_C7_counterexample :
    (shiftRecordsOf c7store 100).map
        (fun r => (r.shift_id, r.shift_date, r.shift_hours)) =
      [(0, 100, 0)] ∧
    (shiftRecordsOf c7store 200).map
        (fun r => (r.shift_id, r.shift_date, r.shift_hours)) =
      [(0, 200, 0)] := by
  constructor
  · decide
  · decide

/-- C5 (confirmed): `find_editable_shift` returns nothing when the (first)
record with the given id belongs to a different employee, is not pending, or
has its reference date older than `max_days` days before today; otherwise it
returns that record. -/
theorem claim_C5 (s : SheetState) (today : Date) (employee_name : String)
    (shift_id max_days : Int) (t : ShiftRecord)
    (hfind : (shiftRecordsOf s today).find? (fun r => r.shift_id == shift_id)
      = some t) :
    get_editable_shift s today employee_name shift_id max_days =
      if t.employee_name = employee_name ∧ t.status = SHIFT_STATUS_PENDING ∧
          ¬(referenceDate t < today - max_days)
      then some t else none := by
  unfold get_editable_shift
  rw [hfind]
  by_cases h1 : t.employee_name = employee_name
  · by_cases h2 : t.status = SHIFT_STATUS_PENDING
    · by_cases h3 : referenceDate t < today - max_days
      · simp [h1, h2, h3]
      · simp [h1, h2, h3]
    · simp [h1, h2]
  · simp [h1]

/-- Witness for C5: on the concrete store, shift 1 of employee "Анна" is
editable for her three days after submission. -/
theorem claim_C5_witness :
    (shiftRecordsOf wStore 739003).find? (fun r => r.shift_id == 1) =
        some wRecPending ∧
      get_editable_shift wStore 739003 "Анна" 1 7 =
        if wRecPending.employee_name = "Анна" ∧
            wRecPending.status = SHIFT_STATUS_PENDING ∧
            ¬(referenceDate wRecPending < 739003 - 7)
        then some wRecPending else none :=
  ⟨by decide, claim_C5 wStore 739003 "Анна" 1 7 wRecPending (by decide)⟩

theorem fdGet_fdRemove (d : FData) (k k' : String) :
    fdGet (fdRemove d k) k' = if k' = k then none else fdGet d k' := by
  induction d with
  | nil => simp [fdRemove, fdGet]
  | cons kv t ih =>
      obtain ⟨a, v⟩ := kv
      by_cases hak : a = k
      · rw [show fdRemove ((a, v) :: t) k = fdRemove t k from by
          simp [fdRemove, hak]]
        rw [ih]
        by_cases hk' : k' = k
        · simp [hk']
        · rw [if_neg hk', if_neg hk']
          simp [fdGet, show ¬(a = k') from fun e => hk' (e.symm.trans hak)]
      · rw [show fdRemove ((a, v) :: t) k = (a, v) :: fdRemove t k from by
          simp [fdRemove, hak]]
        show (if a = k' then some v else fdGet (fdRemove t k) k') = _
        rw [ih]
        by_cases hak' : a = k'
        · rw [if_pos hak']
          rw [if_neg (show ¬(k' = k) from fun e => hak (hak'.trans e))]
          simp [fdGet, hak']
        · rw [if_neg hak']
          by_cases hk' : k' = k
          · simp [hk']
          · simp [hk', fdGet, hak']

theorem fdGet_fdSet (d : FData) (k k' : String) (v : FValue) :
    fdGet (fdSet d k v) k' = if k' = k then some v else fdGet d k' := by
  show (if k = k' then some v else fdGet (fdRemove d k) k') = _
  rw [fdGet_fdRemove]
  by_cases h : k' = k
  · rw [if_pos h.symm, if_pos h]
  · rw [if_neg (show ¬(k = k') from fun e => h e.symm), if_neg h, if_neg h]

theorem request_shift_date_auth (reg : Registry) (store : SheetState)
    (sess : Session) (uid : Int) (emp : Employee)
    (h : regGet reg uid = some emp) :
    request_shift_date reg store sess uid =
      ⟨⟨.shiftFormDate,
         fdUpdate sess.data
           [("employee_name", .vStr emp.name),
            ("manager", fvOfOptStr emp.manager_name)]⟩,
        store, reg, [MSG_ASK_DATE]⟩ := by
  unfold request_shift_date
  rw [h]

theorem start_editing_shift_auth (reg : Registry) (store : SheetState)
    (sess : Session) (uid : Int) (today : Date) (emp : Employee)
    (h : regGet reg uid = some emp) :
    start_editing_shift reg store sess uid today =
      if (get_employee_shifts store today emp.name (some 7) true).isEmpty =
          true
      then ⟨Session.cleared, store, reg, [MSG_NO_EDITABLE]⟩
      else ⟨⟨.shiftEditSelect, []⟩, store, reg,
        [msgEditList (get_employee_shifts store today emp.name (some 7)
          true)]⟩ := by
  unfold start_editing_shift
  rw [h]

theorem handle_manager_decision_mgr (reg : Registry) (store : SheetState)
    (sess : Session) (uid : Int) (action : String) (shift_id : Int)
    (emp : Employee) (h : regGet reg uid = some emp)
    (hm : emp.isManager = true) :
    handle_manager_decision reg store sess uid action shift_id =
      ⟨⟨.managerComment,
         fdUpdate sess.data
           [("manager_action", .vStr action), ("shift_id", .vInt shift_id)]⟩,
        store, reg, [MSG_ASK_DECISION_COMMENT]⟩ := by
  unfold handle_manager_decision
  rw [h]
  exact if_neg (not_not_intro hm)

theorem handle_shift_comment_unauth (reg : Registry) (store : SheetState)
    (sess : Session) (uid : Int) (text : String) (now : DateTime)
    (h : regGet reg uid = none) :
    handle_shift_comment reg store sess uid text now =
      some ⟨sess, store, reg, [MSG_AUTH_REQUIRED]⟩ := by
  unfold handle_shift_comment
  rw [h]

theorem finalize_shift_edit_unauth (reg : Registry) (store : SheetState)
    (sess : Session) (uid : Int) (text : String) (now : DateTime)
    (today : Date) (h : regGet reg uid = none) :
    finalize_shift_edit reg store sess uid text now today =
      some ⟨Session.cleared, store, reg, [MSG_AUTH_REQUIRED]⟩ := by
  unfold finalize_shift_edit
  rw [h]

theorem finalize_manager_decision_unauth (reg : Registry)
    (store : SheetState) (sess : Session) (uid : Int) (text : String)
    (now : DateTime) (today : Date) (h : regGet reg uid = none) :
    finalize_manager_decision reg store sess uid text now today =
      some ⟨Session.cleared, store, reg, [MSG_AUTH_REQUIRED]⟩ := by
  unfold finalize_manager_decision
  rw [h]

theorem finalize_manager_decision_nonmgr (reg : Registry)
    (store : SheetState) (sess : Session) (uid : Int) (text : String)
    (now : DateTime) (today : Date) (emp : Employee)
    (h : regGet reg uid = some emp) (hm : emp.isManager = false) :
    finalize_manager_decision reg store sess uid text now today =
      some ⟨Session.cleared, store, reg, []⟩ := by
  unfold finalize_manager_decision
  rw [h]
  exact if_pos (by rw [hm]; exact Bool.false_ne_true)

/-- C3 (corrected): of the three flow entries, only the shift-edit entry
discards the fields accumulated by a previous flow; starting shift submission
or a manager decision only merges its own keys into the session data, leaving
every other previously accumulated field readable.  (The flows read disjoint
key sets, so the retained fields are never consumed.) -/
theorem claim_C3 (reg : Registry) (store : SheetState) (sess : Session)
    (uid : Int) (today : Date) (emp : Employee)
    (hauth : regGet reg uid = some emp) :
    (start_editing_shift reg store sess uid today).session.data = [] ∧
    ((request_shift_date reg store sess uid).session.conv =
        ConvState.shiftFormDate ∧
      ∀ k, k ≠ "employee_name" → k ≠ "manager" →
        fdGet (request_shift_date reg store sess uid).session.data k =
          fdGet sess.data k) ∧
    (emp.isManager = true → ∀ action sid,
      (handle_manager_decision reg store sess uid action sid).session.conv =
          ConvState.managerComment ∧
      ∀ k, k ≠ "manager_action" → k ≠ "shift_id" →
        fdGet (handle_manager_decision reg store sess uid action
            sid).session.data k =
          fdGet sess.data k) := by
  refine ⟨?_, ⟨?_, ?_⟩, ?_⟩
  · rw [start_editing_shift_auth reg store sess uid today emp hauth]
    by_cases he :
        (get_employee_shifts store today emp.name (some 7) true).isEmpty =
          true
    · rw [if_pos he]
      rfl
    · rw [if_neg he]
  · rw [request_shift_date_auth reg store sess uid emp hauth]
  · intro k h1 h2
    rw [request_shift_date_auth reg store sess uid emp hauth]
    show fdGet (fdUpdate sess.data
      [("employee_name", .vStr emp.name),
        ("manager", fvOfOptStr emp.manager_name)]) k = fdGet sess.data k
    unfold fdUpdate
    simp only [List.foldl_cons, List.foldl_nil]
    rw [fdGet_fdSet, fdGet_fdSet, if_neg h2, if_neg h1]
  · intro hmgr action sid
    rw [handle_manager_decision_mgr reg store sess uid action sid emp hauth
      hmgr]
    refine ⟨rfl, ?_⟩
    intro k h1 h2
    show fdGet (fdUpdate sess.data
      [("manager_action", .vStr action), ("shift_id", .vInt sid)]) k =
        fdGet sess.data k
    unfold fdUpdate
    simp only [List.foldl_cons, List.foldl_nil]
    rw [fdGet_fdSet, fdGet_fdSet, if_neg h2, if_neg h1]

/-- Witness for C3: concrete authorized sessions for the staff member (flow
entries for submission and edit) and the manager (decision entry). -/
theorem claim_C3_witness :
    regGet regStaff 1 = some wEmployeeA ∧
      ((start_editing_shift regStaff emptyStore sessMidEdit 1
          739003).session.data = [] ∧
        ((request_shift_date regStaff emptyStore sessMidEdit 1).session.conv =
            ConvState.shiftFormDate ∧
          ∀ k, k ≠ "employee_name" → k ≠ "manager" →
            fdGet (request_shift_date regStaff emptyStore sessMidEdit
                1).session.data k =
              fdGet sessMidEdit.data k) ∧
        (wEmployeeA.isManager = true → ∀ action sid,
          (handle_manager_decision regStaff emptyStore sessMidEdit 1 action
              sid).session.conv = ConvState.managerComment ∧
          ∀ k, k ≠ "manager_action" → k ≠ "shift_id" →
            fdGet (handle_manager_decision regStaff emptyStore sessMidEdit 1
                action sid).session.data k =
              fdGet sessMidEdit.data k)) :=
  ⟨by decide, claim_C3 regStaff emptyStore sessMidEdit 1 739003 wEmployeeA
    (by decide)⟩

/-- Counterexample for C3 as stated: starting the shift-submission flow in a
session holding a field of an in-progress edit flow leaves that field
readable, instead of discarding it. -/
theorem claim_C3_counterexample :
    (request_shift_date regStaff emptyStore sessMidEdit 1).session.conv =
        ConvState.shiftFormDate ∧
      fdGet (request_shift_date regStaff emptyStore sessMidEdit
          1).session.data "edit_shift_id" = some (.vInt 5) := by
  constructor
  · decide
  · decide

/-- C4 (corrected): on an authorization failure at a persisting transition,
no store write happens and the authentication mapping is unchanged in every
case, but the handlers differ from the claim: the shift-submission finalizer
emits the denial and leaves the conversation state and fields intact; the
shift-edit finalizer clears the session and emits the denial; the
manager-decision finalizer clears the session, emitting the denial only for
an unauthenticated session — an authenticated non-manager is cleared with no
response at all. -/
theorem claim_C4 (reg : Registry) (store : SheetState) (sess : Session)
    (uid : Int) (text : String) (now : DateTime) (today : Date) :
    (regGet reg uid = none →
      handle_shift_comment reg store sess uid text now =
        some ⟨sess, store, reg, [MSG_AUTH_REQUIRED]⟩) ∧
    (regGet reg uid = none →
      finalize_shift_edit reg store sess uid text now today =
        some ⟨Session.cleared, store, reg, [MSG_AUTH_REQUIRED]⟩) ∧
    (regGet reg uid = none →
      finalize_manager_decision reg store sess uid text now today =
        some ⟨Session.cleared, store, reg, [MSG_AUTH_REQUIRED]⟩) ∧
    (∀ emp, regGet reg uid = some emp → emp.isManager = false →
      finalize_manager_decision reg store sess uid text now today =
        some ⟨Session.cleared, store, reg, []⟩) :=
  ⟨fun h => handle_shift_comment_unauth reg store sess uid text now h,
    fun h => finalize_shift_edit_unauth reg store sess uid text now today h,
    fun h => finalize_manager_decision_unauth reg store sess uid text now
      today h,
    fun emp h hm => finalize_manager_decision_nonmgr reg store sess uid text
      now today emp h hm⟩

/-- Witness for C4: an unauthenticated session at the submission finalizer,
and an authenticated non-manager at the decision finalizer. -/
theorem claim_C4_witness :
    regGet ([] : Registry) 1 = none ∧
      handle_shift_comment ([] : Registry) emptyStore sessAtComment 1 "hi"
          ⟨0, 0⟩ =
        some ⟨sessAtComment, emptyStore, ([] : Registry),
          [MSG_AUTH_REQUIRED]⟩ ∧
      regGet regStaff 1 = some wEmployeeA ∧ wEmployeeA.isManager = false ∧
      finalize_manager_decision regStaff emptyStore sessAtComment 1 "hi"
          ⟨0, 0⟩ 739003 =
        some ⟨Session.cleared, emptyStore, regStaff, []⟩ :=
  ⟨by decide,
    (claim_C4 ([] : Registry) emptyStore sessAtComment 1 "hi" ⟨0, 0⟩
      739003).1 (by decide),
    by decide, by decide,
    (claim_C4 regStaff emptyStore sessAtComment 1 "hi" ⟨0, 0⟩
      739003).2.2.2 wEmployeeA (by decide) (by decide)⟩

/-- Counterexample for C4 as stated: at the submission finalizer with an
unauthenticated session, the denial is emitted but the conversation state and
the accumulated fields are NOT cleared — the session comes back unchanged,
still at the comment step with its fields. -/
theorem claim_C4_counterexample :
    handle_shift_comment ([] : Registry) emptyStore sessAtComment 1 "hi"
        ⟨0, 0⟩ =
      some ⟨sessAtComment, emptyStore, ([] : Registry),
        [MSG_AUTH_REQUIRED]⟩ ∧
    sessAtComment.conv ≠ ConvState.idle ∧ sessAtComment.data ≠ [] := by
  refine ⟨?_, ?_, ?_⟩
  · decide
  · decide
  · decide

theorem nextIdOfCells_max (cells : List Cell) :
    (parseableIds cells = [] ∧ nextIdOfCells cells = 1) ∨
      (nextIdOfCells cells - 1 ∈ parseableIds cells ∧
        ∀ n ∈ parseableIds cells, n ≤ nextIdOfCells cells - 1) := by
  unfold nextIdOfCells parseableIds
  cases hn : (cells.filter cellNonempty).filterMap cellInt with
  | nil => exact Or.inl ⟨rfl, rfl⟩
  | cons a l =>
      refine Or.inr ⟨?_, ?_⟩
      · rw [show l.foldl max a + 1 - 1 = l.foldl max a from by omega]
        rcases foldl_max_mem l a with h | h
        · rw [h]
          exact List.mem_cons_self a l
        · exact List.mem_cons_of_mem a h
      · intro n hn'
        rw [show l.foldl max a + 1 - 1 = l.foldl max a from by omega]
        rcases List.mem_cons.mp hn' with rfl | h
        · exact le_foldl_max l n
        · exact mem_le_foldl_max l a n h

theorem ratTrunc_intCast (n : Int) : ratTrunc (n : ℚ) = n := by
  unfold ratTrunc
  by_cases h : (0 : ℚ) ≤ (n : ℚ)
  · rw [if_pos h, Int.floor_intCast]
  · rw [if_neg h, Int.ceil_intCast]

theorem find_record_shape (s : SheetState) (today : Date) (shift_id : Int)
    (t : ShiftRecord)
    (h : (shiftRecordsOf s today).find? (fun r => r.shift_id == shift_id) =
      some t) :
    ∃ i row, s.shifts[i]? = some row ∧ t = recordOf today (2 + i) row ∧
      (t.shift_id == shift_id) = true ∧
      ∀ j y, j < i → s.shifts[j]? = some y →
        ((recordOf today (2 + j) y).shift_id == shift_id) = false := by
  rw [find?_eq_some_iff_position] at h
  obtain ⟨i, hget, hp, hpre⟩ := h
  rw [shiftRecordsOf, fetchFrom_getElem?] at hget
  cases hrow : s.shifts[i]? with
  | none =>
      rw [hrow] at hget
      cases hget
  | some row =>
      rw [hrow] at hget
      simp only [Option.map_some'] at hget
      injection hget with hget
      refine ⟨i, row, hrow, hget.symm, hp, ?_⟩
      intro j y hj hy
      exact hpre j hj (recordOf today (2 + j) y)
        (by rw [shiftRecordsOf, fetchFrom_getElem?, hy]; rfl)

theorem update_shift_status_eq (s : SheetState) (today : Date)
    (shift_id : Int) (status mgr comment : String) (ts : DateTime)
    (t : ShiftRecord)
    (hfind : (shiftRecordsOf s today).find? (fun r => r.shift_id == shift_id)
      = some t)
    (hpend : t.status = SHIFT_STATUS_PENDING) :
    update_shift_status s today shift_id status mgr comment ts =
      ⟨some (decidedRecord t status mgr comment ts), true,
        if status = SHIFT_STATUS_APPROVED
        then appendAccrual
          { s with
              shifts := listModify s.shifts (t.row_index - 2)
                (writeDecision status ts comment mgr) }
          (decidedRecord t status mgr comment ts)
        else
          { s with
              shifts := listModify s.shifts (t.row_index - 2)
                (writeDecision status ts comment mgr) }⟩ := by
  unfold update_shift_status
  rw [hfind]
  exact if_neg (not_not_intro hpend)

theorem update_shift_status_nonpending (s : SheetState) (today : Date)
    (shift_id : Int) (status mgr comment : String) (ts : DateTime)
    (t : ShiftRecord)
    (hfind : (shiftRecordsOf s today).find? (fun r => r.shift_id == shift_id)
      = some t)
    (hnp : t.status ≠ SHIFT_STATUS_PENDING) :
    update_shift_status s today shift_id status mgr comment ts =
      ⟨some t, false, s⟩ := by
  unfold update_shift_status
  rw [hfind]
  exact if_pos hnp

theorem appendAccrual_shifts (s : SheetState) (r : ShiftRecord) :
    (appendAccrual s r).shifts = s.shifts := by
  unfold appendAccrual
  cases h : fetch_employee_by_name s r.employee_name with
  | none => rfl
  | some emp => rfl

theorem appendAccrual_employees (s : SheetState) (r : ShiftRecord) :
    (appendAccrual s r).employees = s.employees := by
  unfold appendAccrual
  cases h : fetch_employee_by_name s r.employee_name with
  | none => rfl
  | some emp => rfl

theorem decision_state_shifts (s : SheetState) (today : Date)
    (shift_id : Int) (status mgr comment : String) (ts : DateTime)
    (t : ShiftRecord)
    (hfind : (shiftRecordsOf s today).find? (fun r => r.shift_id == shift_id)
      = some t)
    (hpend : t.status = SHIFT_STATUS_PENDING) :
    (update_shift_status s today shift_id status mgr comment ts).state.shifts
      = listModify s.shifts (t.row_index - 2)
          (writeDecision status ts comment mgr) := by
  rw [update_shift_status_eq s today shift_id status mgr comment ts t hfind
    hpend]
  dsimp only
  by_cases hap : status = SHIFT_STATUS_APPROVED
  · rw [if_pos hap, appendAccrual_shifts]
  · rw [if_neg hap]

/-- C1 (confirmed): deciding a pending shift twice in sequence (same id, the
requested statuses being approved or declined): the first call reports
changed=true and returns the record carrying the requested status; the second
call reports changed=false, leaves the store untouched, and returns the
record still carrying the status written by the first call with all other
fields as fetched before. -/
theorem claim_C1 (s : SheetState) (today : Date) (shift_id : Int)
    (st1 mgr1 c1 : String) (ts1 : DateTime)
    (st2 mgr2 c2 : String) (ts2 : DateTime) (t : ShiftRecord)
    (hfind : (shiftRecordsOf s today).find? (fun r => r.shift_id == shift_id)
      = some t)
    (hpend : t.status = SHIFT_STATUS_PENDING)
    (hst : st1 = SHIFT_STATUS_APPROVED ∨ st1 = SHIFT_STATUS_DECLINED) :
    (update_shift_status s today shift_id st1 mgr1 c1 ts1).changed = true ∧
    (update_shift_status s today shift_id st1 mgr1 c1 ts1).record =
      some (decidedRecord t st1 mgr1 c1 ts1) ∧
    (decidedRecord t st1 mgr1 c1 ts1).status = st1 ∧
    (update_shift_status
        (update_shift_status s today shift_id st1 mgr1 c1 ts1).state today
        shift_id st2 mgr2 c2 ts2).changed = false ∧
    (update_shift_status
        (update_shift_status s today shift_id st1 mgr1 c1 ts1).state today
        shift_id st2 mgr2 c2 ts2).state =
      (update_shift_status s today shift_id st1 mgr1 c1 ts1).state ∧
    ∃ u,
      (update_shift_status
          (update_shift_status s today shift_id st1 mgr1 c1 ts1).state today
          shift_id st2 mgr2 c2 ts2).record = some u ∧
      u.status = st1 ∧ u.shift_id = t.shift_id ∧
      u.employee_name = t.employee_name ∧ u.shift_date = t.shift_date ∧
      u.shift_hours = t.shift_hours ∧
      u.overtime_hours = t.overtime_hours ∧ u.comment = t.comment ∧
      u.submitted_at = t.submitted_at := by
  obtain ⟨i, row, hrow, hteq, hpid, hpre⟩ :=
    find_record_shape s today shift_id t hfind
  subst hteq
  have hEq1 := update_shift_status_eq s today shift_id st1 mgr1 c1 ts1
    (recordOf today (2 + i) row) hfind hpend
  have hpos : (recordOf today (2 + i) row).row_index - 2 = i := by
    show 2 + i - 2 = i
    omega
  have hshifts1 :
      (update_shift_status s today shift_id st1 mgr1 c1 ts1).state.shifts =
        listModify s.shifts i (writeDecision st1 ts1 c1 mgr1) := by
    rw [decision_state_shifts s today shift_id st1 mgr1 c1 ts1
      (recordOf today (2 + i) row) hfind hpend, hpos]
  have hfind2 :
      (shiftRecordsOf
          (update_shift_status s today shift_id st1 mgr1 c1 ts1).state
          today).find? (fun r => r.shift_id == shift_id) =
        some (recordOf today (2 + i) (writeDecision st1 ts1 c1 mgr1 row)) :=
    by
    rw [find?_eq_some_iff_position]
    refine ⟨i, ?_, ?_, ?_⟩
    · rw [shiftRecordsOf, fetchFrom_getElem?, hshifts1,
        getElem?_listModify_self, hrow]
      rfl
    · exact hpid
    · intro j hj y hy
      rw [shiftRecordsOf, fetchFrom_getElem?, hshifts1,
        getElem?_listModify_ne _ _ _ _ (Nat.ne_of_lt hj)] at hy
      cases hyy : s.shifts[j]? with
      | none =>
          rw [hyy] at hy
          cases hy
      | some y' =>
          rw [hyy] at hy
          simp only [Option.map_some'] at hy
          injection hy with hy
          rw [← hy]
          exact hpre j y' hj hyy
  have hnp2 : (recordOf today (2 + i)
      (writeDecision st1 ts1 c1 mgr1 row)).status ≠ SHIFT_STATUS_PENDING := by
    show pyStrip st1 ≠ SHIFT_STATUS_PENDING
    rcases hst with rfl | rfl
    · decide
    · decide
  have hEq2 := update_shift_status_nonpending
    (update_shift_status s today shift_id st1 mgr1 c1 ts1).state today
    shift_id st2 mgr2 c2 ts2
    (recordOf today (2 + i) (writeDecision st1 ts1 c1 mgr1 row)) hfind2 hnp2
  refine ⟨by rw [hEq1], by rw [hEq1], rfl, by rw [hEq2], by rw [hEq2],
    recordOf today (2 + i) (writeDecision st1 ts1 c1 mgr1 row),
    by rw [hEq2], ?_, rfl, rfl, rfl, rfl, rfl, rfl, rfl⟩
  show pyStrip st1 = st1
  rcases hst with rfl | rfl
  · decide
  · decide

/-- Witness for C1: approving then declining shift 1 of the concrete store in
sequence. -/
theorem claim_C1_witness :
    ((shiftRecordsOf wStore 739003).find? (fun r => r.shift_id == 1) =
        some wRecPending ∧
      wRecPending.status = SHIFT_STATUS_PENDING) ∧
    ((update_shift_status wStore 739003 1 SHIFT_STATUS_APPROVED "Борис" "ok"
        ⟨739003, 610⟩).changed = true ∧
      (update_shift_status wStore 739003 1 SHIFT_STATUS_APPROVED "Борис" "ok"
          ⟨739003, 610⟩).record =
        some (decidedRecord wRecPending SHIFT_STATUS_APPROVED "Борис" "ok"
          ⟨739003, 610⟩) ∧
      (decidedRecord wRecPending SHIFT_STATUS_APPROVED "Борис" "ok"
          ⟨739003, 610⟩).status = SHIFT_STATUS_APPROVED ∧
      (update_shift_status
          (update_shift_status wStore 739003 1 SHIFT_STATUS_APPROVED "Борис"
            "ok" ⟨739003, 610⟩).state 739003 1 SHIFT_STATUS_DECLINED "Борис"
          "x" ⟨739003, 620⟩).changed = false ∧
      (update_shift_status
          (update_shift_status wStore 739003 1 SHIFT_STATUS_APPROVED "Борис"
            "ok" ⟨739003, 610⟩).state 739003 1 SHIFT_STATUS_DECLINED "Борис"
          "x" ⟨739003, 620⟩).state =
        (update_shift_status wStore 739003 1 SHIFT_STATUS_APPROVED "Борис"
          "ok" ⟨739003, 610⟩).state ∧
      ∃ u,
        (update_shift_status
            (update_shift_status wStore 739003 1 SHIFT_STATUS_APPROVED
              "Борис" "ok" ⟨739003, 610⟩).state 739003 1
            SHIFT_STATUS_DECLINED "Борис" "x" ⟨739003, 620⟩).record = some u ∧
        u.status = SHIFT_STATUS_APPROVED ∧ u.shift_id = wRecPending.shift_id ∧
        u.employee_name = wRecPending.employee_name ∧
        u.shift_date = wRecPending.shift_date ∧
        u.shift_hours = wRecPending.shift_hours ∧
        u.overtime_hours = wRecPending.overtime_hours ∧
        u.comment = wRecPending.comment ∧
        u.submitted_at = wRecPending.submitted_at) :=
  ⟨⟨by decide, by decide⟩,
    claim_C1 wStore 739003 1 SHIFT_STATUS_APPROVED "Борис" "ok"
      ⟨739003, 610⟩ SHIFT_STATUS_DECLINED "Борис" "x" ⟨739003, 620⟩
      wRecPending (by decide) (by decide) (Or.inl rfl)⟩

theorem appendAccrual_found (s : SheetState) (r : ShiftRecord)
    (emp : Employee)
    (h : fetch_employee_by_name s r.employee_name = some emp) :
    appendAccrual s r =
      { s with
          accruals := s.accruals ++
            [{ id_cell := .num ((nextIdOfCells
                  (s.accruals.map (·.id_cell)) : Int) : ℚ)
               employee_name := emp.name
               date_cell := .dateStr r.shift_date
               overtime_hours := r.overtime_hours
               shift_rate := emp.shift_rate
               overtime_rate := emp.overtime_rate
               shift_sum := r.shift_hours * emp.shift_rate
               overtime_sum := r.overtime_hours * emp.overtime_rate
               total_sum := r.shift_hours * emp.shift_rate +
                 r.overtime_hours * emp.overtime_rate }] } := by
  unfold appendAccrual
  rw [h]

theorem appendAccrual_notfound (s : SheetState) (r : ShiftRecord)
    (h : fetch_employee_by_name s r.employee_name = none) :
    appendAccrual s r = s := by
  unfold appendAccrual
  rw [h]

/-- C2 (confirmed): approving a pending shift reports changed=true and, when
an employee with the shift's name exists, appends exactly one accrual row
whose sums are shift_hours x shift_rate and overtime_hours x overtime_rate
with their total, rates taken from that employee record; when no such
employee exists the decision is still written (changed=true) but no accrual
row is appended. -/
theorem claim_C2 (s : SheetState) (today : Date) (shift_id : Int)
    (mgr comment : String) (ts : DateTime) (t : ShiftRecord)
    (hfind : (shiftRecordsOf s today).find? (fun r => r.shift_id == shift_id)
      = some t)
    (hpend : t.status = SHIFT_STATUS_PENDING) :
    (update_shift_status s today shift_id SHIFT_STATUS_APPROVED mgr comment
        ts).changed = true ∧
    (∀ emp, fetch_employee_by_name s t.employee_name = some emp →
      ∃ rowA,
        (update_shift_status s today shift_id SHIFT_STATUS_APPROVED mgr
            comment ts).state.accruals = s.accruals ++ [rowA] ∧
        rowA.employee_name = emp.name ∧
        rowA.shift_rate = emp.shift_rate ∧
        rowA.overtime_rate = emp.overtime_rate ∧
        rowA.overtime_hours = t.overtime_hours ∧
        rowA.shift_sum = t.shift_hours * emp.shift_rate ∧
        rowA.overtime_sum = t.overtime_hours * emp.overtime_rate ∧
        rowA.total_sum = rowA.shift_sum + rowA.overtime_sum) ∧
    (fetch_employee_by_name s t.employee_name = none →
      (update_shift_status s today shift_id SHIFT_STATUS_APPROVED mgr comment
          ts).state.accruals = s.accruals) := by
  have hEq1 := update_shift_status_eq s today shift_id SHIFT_STATUS_APPROVED
    mgr comment ts t hfind hpend
  have hstate :
      (update_shift_status s today shift_id SHIFT_STATUS_APPROVED mgr comment
          ts).state =
        appendAccrual
          { s with
              shifts := listModify s.shifts (t.row_index - 2)
                (writeDecision SHIFT_STATUS_APPROVED ts comment mgr) }
          (decidedRecord t SHIFT_STATUS_APPROVED mgr comment ts) := by
    rw [hEq1]
    dsimp only
    rw [if_pos rfl]
  refine ⟨by rw [hEq1], ?_, ?_⟩
  · intro emp hemp
    have heq : (update_shift_status s today shift_id SHIFT_STATUS_APPROVED
        mgr comment ts).state.accruals = s.accruals ++
          [{ id_cell := .num ((nextIdOfCells
                (s.accruals.map (·.id_cell)) : Int) : ℚ)
             employee_name := emp.name
             date_cell := .dateStr t.shift_date
             overtime_hours := t.overtime_hours
             shift_rate := emp.shift_rate
             overtime_rate := emp.overtime_rate
             shift_sum := t.shift_hours * emp.shift_rate
             overtime_sum := t.overtime_hours * emp.overtime_rate
             total_sum := t.shift_hours * emp.shift_rate +
               t.overtime_hours * emp.overtime_rate }] := by
      rw [hstate, appendAccrual_found
        { s with
            shifts := listModify s.shifts (t.row_index - 2)
              (writeDecision SHIFT_STATUS_APPROVED ts comment mgr) }
        (decidedRecord t SHIFT_STATUS_APPROVED mgr comment ts) emp hemp]
      rfl
    exact ⟨_, heq, rfl, rfl, rfl, rfl, rfl, rfl, rfl⟩
  · intro hnone
    rw [hstate, appendAccrual_notfound
      { s with
          shifts := listModify s.shifts (t.row_index - 2)
            (writeDecision SHIFT_STATUS_APPROVED ts comment mgr) }
      (decidedRecord t SHIFT_STATUS_APPROVED mgr comment ts) hnone]

/-- Witness for C2: approving shift 1 in the concrete store; the employee
"Анна" exists with rates 100 and 150. -/
theorem claim_C2_witness :
    ((shiftRecordsOf wStore 739003).find? (fun r => r.shift_id == 1) =
        some wRecPending ∧
      wRecPending.status = SHIFT_STATUS_PENDING) ∧
    ((update_shift_status wStore 739003 1 SHIFT_STATUS_APPROVED "Борис" "ok"
        ⟨739003, 610⟩).changed = true ∧
      (∀ emp, fetch_employee_by_name wStore wRecPending.employee_name =
          some emp →
        ∃ rowA,
          (update_shift_status wStore 739003 1 SHIFT_STATUS_APPROVED "Борис"
              "ok" ⟨739003, 610⟩).state.accruals =
            wStore.accruals ++ [rowA] ∧
          rowA.employee_name = emp.name ∧
          rowA.shift_rate = emp.shift_rate ∧
          rowA.overtime_rate = emp.overtime_rate ∧
          rowA.overtime_hours = wRecPending.overtime_hours ∧
          rowA.shift_sum = wRecPending.shift_hours * emp.shift_rate ∧
          rowA.overtime_sum = wRecPending.overtime_hours * emp.overtime_rate ∧
          rowA.total_sum = rowA.shift_sum + rowA.overtime_sum) ∧
      (fetch_employee_by_name wStore wRecPending.employee_name = none →
        (update_shift_status wStore 739003 1 SHIFT_STATUS_APPROVED "Борис"
            "ok" ⟨739003, 610⟩).state.accruals = wStore.accruals)) :=
  ⟨⟨by decide, by decide⟩,
    claim_C2 wStore 739003 1 "Борис" "ok" ⟨739003, 610⟩ wRecPending
      (by decide) (by decide)⟩

theorem get_editable_shift_find (s : SheetState) (today : Date)
    (name : String) (shift_id max_days : Int) (r : ShiftRecord)
    (h : get_editable_shift s today name shift_id max_days = some r) :
    (shiftRecordsOf s today).find? (fun x => x.shift_id == shift_id) =
      some r := by
  unfold get_editable_shift at h
  cases hf : (shiftRecordsOf s today).find? (fun x => x.shift_id == shift_id)
      with
  | none =>
      rw [hf] at h
      cases h
  | some rec =>
      rw [hf] at h
      have hh : (if rec.employee_name ≠ name then none
          else if rec.status ≠ SHIFT_STATUS_PENDING then none
          else if referenceDate rec < today - max_days then none
          else some rec) = some r := h
      by_cases h1 : rec.employee_name ≠ name
      · rw [if_pos h1] at hh
        cases hh
      · rw [if_neg h1] at hh
        by_cases h2 : rec.status ≠ SHIFT_STATUS_PENDING
        · rw [if_pos h2] at hh
          cases hh
        · rw [if_neg h2] at hh
          by_cases h3 : referenceDate rec < today - max_days
          · rw [if_pos h3] at hh
            cases hh
          · rw [if_neg h3] at hh
            injection hh with hh
            rw [hh]

/-- C10 (confirmed): a successful `update_shift_details` writes only the
shift date, overtime, hours, comment and submitted-at cells of the target
row; the row's id, name, status, approval and manager cells, every other row,
and the employees and accruals worksheets are left unchanged. -/
theorem claim_C10 (s : SheetState) (today : Date) (shift_id : Int)
    (name : String) (upd : ShiftInput) (max_days : Int)
    (hok : (update_shift_details s today shift_id name upd max_days).ok =
      true) :
    (update_shift_details s today shift_id name upd max_days).state.employees
        = s.employees ∧
    (update_shift_details s today shift_id name upd max_days).state.accruals
        = s.accruals ∧
    ∃ (i : Nat) (row : ShiftRow), s.shifts[i]? = some row ∧
      (update_shift_details s today shift_id name upd
          max_days).state.shifts[i]? =
        some { row with
          date_cell := .dateStr upd.shift_date,
          overtime_cell := .num upd.overtime_hours,
          hours_cell := .num upd.shift_hours,
          comment_cell := upd.comment,
          submitted_cell := .dtStr upd.submitted_at } ∧
      (∀ j, j ≠ i →
        (update_shift_details s today shift_id name upd
            max_days).state.shifts[j]? = s.shifts[j]?) := by
  cases hed : get_editable_shift s today name shift_id max_days with
  | none =>
      exfalso
      unfold update_shift_details at hok
      rw [hed] at hok
      cases hok
  | some ed =>
      have hfind := get_editable_shift_find s today name shift_id max_days ed
        hed
      obtain ⟨i, row, hrow, hteq, hpid, hpre⟩ :=
        find_record_shape s today shift_id ed hfind
      have hEq : update_shift_details s today shift_id name upd max_days =
          ⟨{ s with
              shifts := listModify s.shifts (ed.row_index - 2)
                (writeDetails upd) }, true⟩ := by
        unfold update_shift_details
        rw [hed]
      have hpos : ed.row_index - 2 = i := by
        rw [hteq]
        show 2 + i - 2 = i
        omega
      refine ⟨by rw [hEq], by rw [hEq], i, row, hrow, ?_, ?_⟩
      · rw [hEq]
        show (listModify s.shifts (ed.row_index - 2) (writeDetails upd))[i]?
          = _
        rw [hpos, getElem?_listModify_self, hrow]
        rfl
      · intro j hj
        rw [hEq]
        show (listModify s.shifts (ed.row_index - 2) (writeDetails upd))[j]?
          = _
        rw [hpos, getElem?_listModify_ne _ _ _ _ hj]

/-- Witness for C10: editing shift 1 of the concrete store succeeds and
rewrites exactly the five detail cells of its row. -/
theorem claim_C10_witness :
    (update_shift_details wStore 739003 1 "Анна" wEditInput 7).ok = true ∧
    ((update_shift_details wStore 739003 1 "Анна" wEditInput
          7).state.employees = wStore.employees ∧
      (update_shift_details wStore 739003 1 "Анна" wEditInput
          7).state.accruals = wStore.accruals ∧
      ∃ (i : Nat) (row : ShiftRow), wStore.shifts[i]? = some row ∧
        (update_shift_details wStore 739003 1 "Анна" wEditInput
            7).state.shifts[i]? =
          some { row with
            date_cell := .dateStr wEditInput.shift_date,
            overtime_cell := .num wEditInput.overtime_hours,
            hours_cell := .num wEditInput.shift_hours,
            comment_cell := wEditInput.comment,
            submitted_cell := .dtStr wEditInput.submitted_at } ∧
        (∀ j, j ≠ i →
          (update_shift_details wStore 739003 1 "Анна" wEditInput
              7).state.shifts[j]? = wStore.shifts[j]?)) :=
  ⟨by decide, claim_C10 wStore 739003 1 "Анна" wEditInput 7 (by decide)⟩

theorem append_shift_records (s : SheetState) (inp : ShiftInput)
    (today : Date) :
    shiftRecordsOf (append_shift s inp).state today =
      shiftRecordsOf s today ++
        [recordOf today (2 + s.shifts.length)
          { id_cell := .num ((nextIdOfCells
                (s.shifts.map (·.id_cell)) : Int) : ℚ)
            name_cell := inp.employee_name
            date_cell := .dateStr inp.shift_date
            overtime_cell := .num inp.overtime_hours
            hours_cell := .num inp.shift_hours
            comment_cell := inp.comment
            submitted_cell := .dtStr inp.submitted_at
            status_cell := SHIFT_STATUS_PENDING
            approved_cell := .str ""
            mgr_comment_cell := ""
            mgr_name_cell := inp.manager_name.getD "" }] := by
  show fetchFrom today 2 (s.shifts ++ [_]) = _
  rw [fetchFrom_append_singleton]
  rfl

theorem pyStrip_pending : pyStrip SHIFT_STATUS_PENDING =
    SHIFT_STATUS_PENDING := by
  decide

theorem append_shift_new_record (s : SheetState) (inp : ShiftInput)
    (today : Date) (hname : pyStrip inp.employee_name = inp.employee_name) :
    recordOf today (2 + s.shifts.length)
        { id_cell := .num ((nextIdOfCells
              (s.shifts.map (·.id_cell)) : Int) : ℚ)
          name_cell := inp.employee_name
          date_cell := .dateStr inp.shift_date
          overtime_cell := .num inp.overtime_hours
          hours_cell := .num inp.shift_hours
          comment_cell := inp.comment
          submitted_cell := .dtStr inp.submitted_at
          status_cell := SHIFT_STATUS_PENDING
          approved_cell := .str ""
          mgr_comment_cell := ""
          mgr_name_cell := inp.manager_name.getD "" } =
      { row_index := 2 + s.shifts.length
        shift_id := nextIdOfCells (s.shifts.map (·.id_cell))
        employee_name := inp.employee_name
        shift_date := inp.shift_date
        overtime_hours := inp.overtime_hours
        shift_hours := inp.shift_hours
        comment := pyStrip inp.comment
        submitted_at := some inp.submitted_at
        status := SHIFT_STATUS_PENDING
        approved_at := none
        manager_comment := ""
        manager_name :=
          if pyStrip (inp.manager_name.getD "") = "" then none
          else some (pyStrip (inp.manager_name.getD "")) } := by
  unfold recordOf
  simp only [ShiftRecord.mk.injEq, cellInt, cellDate, cellDateTime,
    parse_float, Option.getD_some, pyStrip_pending, hname, ratTrunc_intCast]
  simp [show pyStrip "" = "" from by decide, cellFloat]

/-- C6 (corrected): `append_shift` assigns the id max(parseable ids)+1 — or 1
when no id cell parses, empty and unparseable cells being ignored — and
appends a pending record; a subsequent `list_employee_shifts(name, None)`
additionally returns a record whose fields equal the appended input with that
id and pending status, except that the comment (like every text cell) is
returned stripped of surrounding whitespace, and the employee name must
already be whitespace-clean for the record to be listed under it. -/
theorem claim_C6 (s : SheetState) (inp : ShiftInput) (today : Date)
    (hname : pyStrip inp.employee_name = inp.employee_name) :
    ((parseableIds (s.shifts.map (·.id_cell)) = [] ∧
        (append_shift s inp).id = 1) ∨
      ((append_shift s inp).id - 1 ∈
          parseableIds (s.shifts.map (·.id_cell)) ∧
        ∀ n ∈ parseableIds (s.shifts.map (·.id_cell)),
          n ≤ (append_shift s inp).id - 1)) ∧
    get_employee_shifts (append_shift s inp).state today inp.employee_name
        none false =
      get_employee_shifts s today inp.employee_name none false ++
        [{ row_index := 2 + s.shifts.length
           shift_id := (append_shift s inp).id
           employee_name := inp.employee_name
           shift_date := inp.shift_date
           overtime_hours := inp.overtime_hours
           shift_hours := inp.shift_hours
           comment := pyStrip inp.comment
           submitted_at := some inp.submitted_at
           status := SHIFT_STATUS_PENDING
           approved_at := none
           manager_comment := ""
           manager_name :=
             if pyStrip (inp.manager_name.getD "") = "" then none
             else some (pyStrip (inp.manager_name.getD "")) }] := by
  refine ⟨nextIdOfCells_max (s.shifts.map (·.id_cell)), ?_⟩
  unfold get_employee_shifts
  simp only [append_shift_records s inp today,
    append_shift_new_record s inp today hname, List.filter_append]
  congr 1
  simp
  rfl

/-- Witness for C6: appending a shift for "Анна" to the concrete store (whose
only parseable id is 1) assigns id 2 and lists the new record. -/
theorem claim_C6_witness :
    pyStrip c6input.employee_name = c6input.employee_name ∧
    (((parseableIds (wStore.shifts.map (·.id_cell)) = [] ∧
        (append_shift wStore c6input).id = 1) ∨
      ((append_shift wStore c6input).id - 1 ∈
          parseableIds (wStore.shifts.map (·.id_cell)) ∧
        ∀ n ∈ parseableIds (wStore.shifts.map (·.id_cell)),
          n ≤ (append_shift wStore c6input).id - 1)) ∧
    get_employee_shifts (append_shift wStore c6input).state 739003
        c6input.employee_name none false =
      get_employee_shifts wStore 739003 c6input.employee_name none false ++
        [{ row_index := 2 + wStore.shifts.length
           shift_id := (append_shift wStore c6input).id
           employee_name := c6input.employee_name
           shift_date := c6input.shift_date
           overtime_hours := c6input.overtime_hours
           shift_hours := c6input.shift_hours
           comment := pyStrip c6input.comment
           submitted_at := some c6input.submitted_at
           status := SHIFT_STATUS_PENDING
           approved_at := none
           manager_comment := ""
           manager_name :=
             if pyStrip (c6input.manager_name.getD "") = "" then none
             else some (pyStrip (c6input.manager_name.getD "")) }]) :=
  ⟨by decide, claim_C6 wStore c6input 739003 (by decide)⟩

/-- Counterexample for C6 as stated: the appended input's comment " late"
comes back from `list_employee_shifts` stripped to "late", so the returned
record's fields do not all equal the appended input. -/
theorem claim_C6_counterexample :
    c6input.comment = " late" ∧
      (get_employee_shifts (append_shift emptyStore c6input).state 739003
          "Анна" none false).map (fun r => r.comment) = ["late"] ∧
      (" late" : String) ≠ "late" := by
  refine ⟨rfl, by decide, by decide⟩

theorem digitsUndAux_spec (dl : List Char) (r : List Char) (v cnt : Nat)
    (hdl : ∀ c ∈ dl, c.isDigit = true)
    (hr : ∀ c t, r = c :: t → c.isDigit = false ∧ c ≠ '_') :
    digitsUndAux v cnt (dl ++ r) =
      (dl.foldl (fun a c => 10 * a + (c.toNat - 48)) v, cnt + dl.length, r) := by
  induction dl generalizing v cnt with
  | nil =>
      simp only [List.nil_append, List.foldl_nil, List.length_nil,
        Nat.add_zero]
      cases r with
      | nil => rfl
      | cons c t =>
          obtain ⟨hcd, hcu⟩ := hr c t rfl
          unfold digitsUndAux
          rw [hcd]
          simp [hcu]
  | cons d dl' ih =>
      have hd : d.isDigit = true := hdl d (List.mem_cons_self d dl')
      rw [List.cons_append]
      unfold digitsUndAux
      rw [hd]
      simp only [if_true]
      rw [ih (10 * v + (d.toNat - 48)) (cnt + 1)
        (fun c hc => hdl c (List.mem_cons_of_mem d hc))]
      simp only [List.foldl_cons, List.length_cons, Prod.mk.injEq]
      exact ⟨trivial, by omega, trivial⟩

theorem parseDigitsU_spec (dl r : List Char) (hne : dl ≠ [])
    (hdl : ∀ c ∈ dl, c.isDigit = true)
    (hr : ∀ c t, r = c :: t → c.isDigit = false ∧ c ≠ '_') :
    parseDigitsU (dl ++ r) = some (digitsVal dl, dl.length, r) := by
  cases dl with
  | nil => exact absurd rfl hne
  | cons d dl' =>
      have hd : d.isDigit = true := hdl d (List.mem_cons_self d dl')
      rw [List.cons_append]
      simp only [parseDigitsU, hd, if_true]
      rw [digitsUndAux_spec dl' r (d.toNat - 48) 1
        (fun c hc => hdl c (List.mem_cons_of_mem d hc)) hr]
      simp only [Option.some.injEq, Prod.mk.injEq]
      refine ⟨?_, ?_, trivial⟩
      · simp only [digitsVal, List.foldl_cons, Nat.mul_zero, Nat.zero_add]
      · simp only [List.length_cons]
        omega

theorem parseDigitsU_whole (dl : List Char) (hne : dl ≠ [])
    (hdl : ∀ c ∈ dl, c.isDigit = true) :
    parseDigitsU dl = some (digitsVal dl, dl.length, []) := by
  have h := parseDigitsU_spec dl [] hne hdl (fun c t hct => nomatch hct)
  rwa [List.append_nil] at h

theorem parseDigitsU_none (l : List Char)
    (h : ∀ c t, l = c :: t → c.isDigit = false) : parseDigitsU l = none := by
  cases l with
  | nil => rfl
  | cons c t =>
      simp [parseDigitsU, h c t rfl]

theorem parseMantissa_intOnly (dl : List Char) (hne : dl ≠ [])
    (hdl : ∀ c ∈ dl, c.isDigit = true) :
    parseMantissa dl = some ((digitsVal dl : ℚ), []) := by
  simp only [parseMantissa, parseDigitsU_whole dl hne hdl]

theorem parseMantissa_frac (dl frac : List Char)
    (hdl : ∀ c ∈ dl, c.isDigit = true)
    (hfrac : ∀ c ∈ frac, c.isDigit = true)
    (hne : ¬(dl = [] ∧ frac = [])) :
    parseMantissa (dl ++ '.' :: frac) =
      some ((digitsVal dl : ℚ) + fracVal frac, []) := by
  cases dl with
  | nil =>
      have hfne : frac ≠ [] := fun h => hne ⟨rfl, h⟩
      rw [List.nil_append]
      have hnone : parseDigitsU ('.' :: frac) = none :=
        parseDigitsU_none _ (fun c t hct => by
          injection hct with h1 h2
          subst h1
          decide)
      simp only [parseMantissa, hnone, parseDigitsU_whole frac hfne hfrac]
      norm_num [digitsVal, fracVal]
  | cons d dl' =>
      have h := parseDigitsU_spec (d :: dl') ('.' :: frac) (by simp) hdl
        (fun c t hct => by
          injection hct with h1 h2
          subst h1
          exact ⟨by decide, by decide⟩)
      cases frac with
      | nil =>
          have hfr : parseDigitsU ([] : List Char) = none := rfl
          simp only [parseMantissa, h, hfr]
          norm_num [fracVal, digitsVal]
      | cons f fr =>
          have hfr := parseDigitsU_whole (f :: fr) (by simp) hfrac
          simp only [parseMantissa, h, hfr]
          norm_num [fracVal]

theorem parseMantissa_noDigit (l : List Char)
    (h : ∀ c ∈ l, c.isDigit = false) : parseMantissa l = none := by
  cases l with
  | nil => rfl
  | cons c r2 =>
      have h0 : parseDigitsU (c :: r2) = none :=
        parseDigitsU_none _ (fun c2 t hct => by
          injection hct with h1 h2
          subst h1
          exact h c (List.mem_cons_self c r2))
      have h2 : parseDigitsU r2 = none :=
        parseDigitsU_none r2 (fun c2 t2 hct => by
          subst hct
          exact h c2 (List.mem_cons_of_mem c (List.mem_cons_self c2 t2)))
      simp only [parseMantissa, h0, h2]
      by_cases hc : c = '.'
      · simp [hc]
      · simp [hc]

theorem pyFloatMagnitude_numeral (body : List Char) (m : ℚ)
    (h : specBodyVal body = some m) :
    pyFloatMagnitude (body.map commaToDot) = some (.fin m) := by
  have hipd : ∀ c ∈ body.takeWhile Char.isDigit, c.isDigit = true :=
    fun c hc => mem_takeWhile_digit body c hc
  simp only [specBodyVal] at h
  cases hrest : body.dropWhile Char.isDigit with
  | nil =>
      rw [hrest] at h
      have h2 : (if (body.takeWhile Char.isDigit).isEmpty then
            (none : Option ℚ)
          else some ((digitsVal (body.takeWhile Char.isDigit) : ℚ))) =
            some m := h
      by_cases he : (body.takeWhile Char.isDigit).isEmpty
      · rw [if_pos he] at h2
        cases h2
      · rw [if_neg he] at h2
        have hm : (digitsVal (body.takeWhile Char.isDigit) : ℚ) = m :=
          Option.some.inj h2
        have hne : body.takeWhile Char.isDigit ≠ [] := by
          intro hh
          rw [hh] at he
          exact he rfl
        have hbody : body = body.takeWhile Char.isDigit := by
          conv_lhs => rw [← List.takeWhile_append_dropWhile
            (p := Char.isDigit) (l := body)]
          rw [hrest, List.append_nil]
        rw [hbody, map_commaToDot_of_all_digits _ hipd]
        simp only [pyFloatMagnitude, parseMantissa_intOnly _ hne hipd,
          parseExponent]
        simp [hm]
  | cons sep frac =>
      rw [hrest] at h
      have h2 : (if (sep = ',' ∨ sep = '.') ∧ frac.all Char.isDigit ∧
          ¬((body.takeWhile Char.isDigit).isEmpty ∧ frac.isEmpty) then
            some ((digitsVal (body.takeWhile Char.isDigit) : ℚ) +
              fracVal frac)
          else none) = some m := h
      by_cases hc : (sep = ',' ∨ sep = '.') ∧ frac.all Char.isDigit ∧
          ¬((body.takeWhile Char.isDigit).isEmpty ∧ frac.isEmpty)
      · rw [if_pos hc] at h2
        have hm := Option.some.inj h2
        obtain ⟨hsep, hfa, hnem⟩ := hc
        have hfd : ∀ c ∈ frac, c.isDigit = true :=
          fun c hc2 => List.all_eq_true.mp hfa c hc2
        have hbody : body = body.takeWhile Char.isDigit ++ sep :: frac := by
          conv_lhs => rw [← List.takeWhile_append_dropWhile
            (p := Char.isDigit) (l := body)]
          rw [hrest]
        have hnepair : ¬(body.takeWhile Char.isDigit = [] ∧ frac = []) := by
          intro hpair
          exact hnem ⟨by rw [hpair.1]; rfl, by rw [hpair.2]; rfl⟩
        have hsepdot : commaToDot sep = '.' := by
          rcases hsep with rfl | rfl <;> decide
        rw [hbody, List.map_append, map_commaToDot_of_all_digits _ hipd,
          List.map_cons, hsepdot, map_commaToDot_of_all_digits frac hfd]
        simp only [pyFloatMagnitude,
          parseMantissa_frac _ frac hipd hfd hnepair, parseExponent]
        simp [hm]
      · rw [if_neg hc] at h2
        cases h2

theorem pyFloatChars_numeral (cs : List Char) (v : ℚ)
    (h : specDecimalValue cs = some v) :
    pyFloatChars (cs.map commaToDot) = some (.fin v) := by
  cases cs with
  | nil => simp [specDecimalValue, signSplit, specBodyVal] at h
  | cons a t =>
      simp only [specDecimalValue, signSplit] at h
      by_cases hp : a = '+'
      · rw [if_pos hp] at h
        subst hp
        simp only [Option.map_eq_some'] at h
        obtain ⟨m, hm, hv⟩ := h
        subst hv
        simp only [List.map_cons, show commaToDot '+' = '+' from by decide,
          pyFloatChars]
        rw [if_true, pyFloatMagnitude_numeral t m hm]
        simp
      · rw [if_neg hp] at h
        by_cases hm' : a = '-'
        · rw [if_pos hm'] at h
          subst hm'
          simp only [Option.map_eq_some'] at h
          obtain ⟨m, hm, hv⟩ := h
          subst hv
          simp only [List.map_cons, show commaToDot '-' = '-' from by decide,
            pyFloatChars]
          rw [if_true, pyFloatMagnitude_numeral t m hm]
          simp [pyFloatNegate]
        · rw [if_neg hm'] at h
          simp only [Option.map_eq_some'] at h
          obtain ⟨m, hm, hv⟩ := h
          subst hv
          have hfa1 : commaToDot a ≠ '+' := by
            by_cases hc : a = ','
            · subst hc
              decide
            · rw [commaToDot_eq_self a hc]
              exact hp
          have hfa2 : commaToDot a ≠ '-' := by
            by_cases hc : a = ','
            · subst hc
              decide
            · rw [commaToDot_eq_self a hc]
              exact hm'
          simp only [List.map_cons, pyFloatChars]
          rw [if_neg hfa1, if_neg hfa2, ← List.map_cons,
            pyFloatMagnitude_numeral (a :: t) m hm]
          simp

theorem lowerMap_commaToDot (l : List Char) (X : List Char) (hX : '.' ∉ X)
    (h : (l.map commaToDot).map pyLowerChar = X) :
    l.map pyLowerChar = X := by
  induction l generalizing X with
  | nil => simpa using h
  | cons a l' ih =>
      cases X with
      | nil => simp at h
      | cons x X' =>
          simp only [List.map_cons, List.cons.injEq] at h ⊢
          obtain ⟨h1, h2⟩ := h
          have hX' : '.' ∉ X' := fun hm => hX (List.mem_cons_of_mem x hm)
          refine ⟨?_, ih X' hX' h2⟩
          by_cases ha : a = ','
          · exfalso
            subst ha
            have hx : x = '.' := by
              rw [← h1]
              decide
            subst hx
            exact hX (List.mem_cons_self _ X')
          · rw [commaToDot_eq_self a ha] at h1
            exact h1

theorem isInfNanSpelling_false (b : List Char)
    (h : isInfNanSpelling b = false) :
    b.map pyLowerChar ≠ [ 'i', 'n', 'f'] ∧
      b.map pyLowerChar ≠ [ 'i', 'n', 'f', 'i', 'n', 'i', 't', 'y'] ∧
      b.map pyLowerChar ≠ [ 'n', 'a', 'n'] := by
  rw [isInfNanSpelling] at h
  simp only [Bool.or_eq_false_iff, decide_eq_false_iff_not] at h
  exact ⟨h.1.1, h.1.2, h.2⟩

theorem pyFloatMagnitude_nonNumeric (body : List Char)
    (hnod : ∀ c ∈ body, c.isDigit = false)
    (hsp : isInfNanSpelling body = false) :
    pyFloatMagnitude (body.map commaToDot) = none := by
  obtain ⟨hinf, hinfy, hnan⟩ := isInfNanSpelling_false body hsp
  have hnod2 : ∀ c ∈ body.map commaToDot, c.isDigit = false := by
    intro c hc
    obtain ⟨a, ha, rfl⟩ := List.mem_map.mp hc
    rw [isDigit_commaToDot]
    exact hnod a ha
  have k1 : (body.map commaToDot).map pyLowerChar ≠ [ 'i', 'n', 'f'] :=
    fun hh => hinf (lowerMap_commaToDot body _ (by decide) hh)
  have k2 : (body.map commaToDot).map pyLowerChar ≠
      [ 'i', 'n', 'f', 'i', 'n', 'i', 't', 'y'] :=
    fun hh => hinfy (lowerMap_commaToDot body _ (by decide) hh)
  have k3 : (body.map commaToDot).map pyLowerChar ≠ [ 'n', 'a', 'n'] :=
    fun hh => hnan (lowerMap_commaToDot body _ (by decide) hh)
  simp only [pyFloatMagnitude, parseMantissa_noDigit _ hnod2]
  rw [if_neg (not_or.mpr ⟨k1, k2⟩), if_neg k3]

theorem pyFloatChars_nonNumeric (cs : List Char)
    (h : specNonNumericText cs = true) :
    pyFloatChars (cs.map commaToDot) = none := by
  rw [specNonNumericText, Bool.and_eq_true] at h
  obtain ⟨hnodB, hspB⟩ := h
  rw [Bool.not_eq_true'] at hspB
  have hnod : ∀ c ∈ cs, c.isDigit = false := by
    intro c hc
    have h2 := List.all_eq_true.mp hnodB c hc
    simpa using h2
  cases cs with
  | nil => rfl
  | cons a t =>
      have hnodt : ∀ c ∈ t, c.isDigit = false :=
        fun c hc => hnod c (List.mem_cons_of_mem a hc)
      by_cases hp : a = '+'
      · subst hp
        have hsb : signBody ( '+' :: t) = t := by simp [signBody]
        rw [hsb] at hspB
        simp only [List.map_cons, show commaToDot '+' = '+' from by decide,
          pyFloatChars]
        rw [if_true]
        exact pyFloatMagnitude_nonNumeric t hnodt hspB
      · by_cases hm' : a = '-'
        · subst hm'
          have hsb : signBody ( '-' :: t) = t := by simp [signBody]
          rw [hsb] at hspB
          simp only [List.map_cons, show commaToDot '-' = '-' from by decide,
            pyFloatChars]
          rw [if_true, pyFloatMagnitude_nonNumeric t hnodt hspB]
          simp
        · have hsb : signBody (a :: t) = a :: t := by
            simp only [signBody]
            rw [if_neg (not_or.mpr ⟨hp, hm'⟩)]
          rw [hsb] at hspB
          have hfa1 : commaToDot a ≠ '+' := by
            by_cases hc : a = ','
            · subst hc
              decide
            · rw [commaToDot_eq_self a hc]
              exact hp
          have hfa2 : commaToDot a ≠ '-' := by
            by_cases hc : a = ','
            · subst hc
              decide
            · rw [commaToDot_eq_self a hc]
              exact hm'
          simp only [List.map_cons, pyFloatChars]
          rw [if_neg hfa1, if_neg hfa2, ← List.map_cons]
          exact pyFloatMagnitude_nonNumeric (a :: t) hnod hspB

theorem parse_hours_eq (s : String) :
    parse_hours s =
      match pyFloatChars ((stripChars s.data).map commaToDot) with
      | none => none
      | some v => if pyFloatIsNeg v then none else some v := by
  unfold parse_hours
  rw [stripChars_map_commaToDot]

/-- C9 (corrected): for every string that is a valid decimal numeral with
comma or dot separator denoting a non-negative value, `parse_hours` returns
exactly that value, and for every such numeral denoting a negative value it
returns the invalid result; but "non-numeric string implies invalid" only
holds for text that is non-numeric in the full CPython float grammar (no
digit anywhere, and not an inf/nan spelling after an optional sign): float
syntax such as exponents, digit-grouping underscores and the inf/nan
spellings is accepted, with nan and positive infinity passed through since
only values below zero are rejected (see the counterexample). -/
theorem claim_C9 (s : String) :
    (∀ v : ℚ, specDecimalValue s.data = some v → 0 ≤ v →
        parse_hours s = some (.fin v)) ∧
    (∀ v : ℚ, specDecimalValue s.data = some v → v < 0 →
        parse_hours s = none) ∧
    (specNonNumericText (stripChars s.data) = true →
        parse_hours s = none) := by
  refine ⟨?_, ?_, ?_⟩
  · intro v h hv
    have hid : stripChars s.data = s.data :=
      stripChars_eq_self s.data (specDecimalValue_no_ws s.data v h)
    rw [parse_hours_eq, hid, pyFloatChars_numeral s.data v h]
    show (if pyFloatIsNeg (.fin v) then none else some (PyFloat.fin v)) =
      some (PyFloat.fin v)
    rw [if_neg]
    simp only [pyFloatIsNeg, decide_eq_true_eq, not_lt]
    exact hv
  · intro v h hv
    have hid : stripChars s.data = s.data :=
      stripChars_eq_self s.data (specDecimalValue_no_ws s.data v h)
    rw [parse_hours_eq, hid, pyFloatChars_numeral s.data v h]
    show (if pyFloatIsNeg (.fin v) then none else some (PyFloat.fin v)) =
      none
    rw [if_pos]
    simp only [pyFloatIsNeg, decide_eq_true_eq]
    exact hv
  · intro h
    rw [parse_hours_eq, pyFloatChars_nonNumeric _ h]

theorem claim_C9_witness :
    parse_hours (String.mk [ '7', ',', '5']) = some (.fin (15 / 2 : ℚ)) ∧
      parse_hours (String.mk [ '7', '.', '5']) = some (.fin (15 / 2 : ℚ)) ∧
      parse_hours (String.mk [ '-', '3']) = none ∧
      parse_hours (String.mk [ 'a', 'b', 'c']) = none :=
  ⟨(claim_C9 (String.mk [ '7', ',', '5'])).1 (15 / 2)
      (by norm_num [specDecimalValue, signSplit, specBodyVal, digitsVal,
        fracVal, List.takeWhile, List.dropWhile,
        show Char.isDigit '7' = true from by decide,
        show Char.isDigit '5' = true from by decide,
        show Char.isDigit ',' = false from by decide,
        show (Char.toNat '7' - 48) = 7 from rfl,
        show (Char.toNat '5' - 48) = 5 from rfl,
        eq_false (show ¬( '7' = '+') from by decide),
        eq_false (show ¬( '7' = '-') from by decide)])
      (by norm_num),
    (claim_C9 (String.mk [ '7', '.', '5'])).1 (15 / 2)
      (by norm_num [specDecimalValue, signSplit, specBodyVal, digitsVal,
        fracVal, List.takeWhile, List.dropWhile,
        show Char.isDigit '7' = true from by decide,
        show Char.isDigit '5' = true from by decide,
        show Char.isDigit '.' = false from by decide,
        show (Char.toNat '7' - 48) = 7 from rfl,
        show (Char.toNat '5' - 48) = 5 from rfl,
        eq_false (show ¬( '7' = '+') from by decide),
        eq_false (show ¬( '7' = '-') from by decide)])
      (by norm_num),
    (claim_C9 (String.mk [ '-', '3'])).2.1 (-3)
      (by norm_num [specDecimalValue, signSplit, specBodyVal, digitsVal,
        fracVal, List.takeWhile, List.dropWhile,
        show Char.isDigit '3' = true from by decide,
        show (Char.toNat '3' - 48) = 3 from rfl,
        eq_false (show ¬( '-' = '+') from by decide),
        eq_true (show ( '-' = '-') from rfl)])
      (by norm_num),
    (claim_C9 (String.mk [ 'a', 'b', 'c'])).2.2 (by decide)⟩

/-- Counterexample for C9 as stated: "nan", "inf", "1e3" and "1_0" are not
decimal numerals with comma or dot separator (so they are non-numeric
strings in the claim's sense), yet `parse_hours` accepts them as CPython
`float` does, returning nan, infinity, 1000 and 10 rather than the invalid
result. -/
theorem claim_C9_counterexample :
    parse_hours (String.mk [ 'n', 'a', 'n']) = some PyFloat.nan ∧
      parse_hours (String.mk [ 'i', 'n', 'f']) = some PyFloat.inf ∧
      parse_hours (String.mk [ '1', 'e', '3']) = some (.fin 1000) ∧
      parse_hours (String.mk [ '1', '_', '0']) = some (.fin 10) := by
  refine ⟨by decide, by decide, ?_, ?_⟩
  · unfold parse_hours
    rw [show stripChars (List.map commaToDot
        (String.mk [ '1', 'e', '3']).data) = [ '1', 'e', '3'] from by decide]
    have e3 : parseMantissa [ '1', 'e', '3'] =
        some ((1 : ℚ), [ 'e', '3']) := by
      norm_num [parseMantissa,
        show parseDigitsU [ '1', 'e', '3'] = some (1, 1, [ 'e', '3'])
          from by decide,
        eq_false (show ¬(( 'e' : Char) = '.') from by decide)]
    have e4 : parseExponent [ 'e', '3'] = some ((1000 : ℚ)) := by
      norm_num [parseExponent,
        show parseDigitsU [ '3'] = some (3, 1, ([] : List Char))
          from by decide,
        eq_false (show ¬(( '3' : Char) = '+') from by decide),
        eq_false (show ¬(( '3' : Char) = '-') from by decide)]
    have e5 : pyFloatChars [ '1', 'e', '3'] = some (.fin 1000) := by
      simp only [pyFloatChars, pyFloatMagnitude, e3, e4,
        eq_false (show ¬(( '1' : Char) = '+') from by decide),
        eq_false (show ¬(( '1' : Char) = '-') from by decide), if_false]
      norm_num
    rw [e5]
    norm_num [pyFloatIsNeg]
  · unfold parse_hours
    rw [show stripChars (List.map commaToDot
        (String.mk [ '1', '_', '0']).data) = [ '1', '_', '0'] from by decide]
    have f3 : parseMantissa [ '1', '_', '0'] = some ((10 : ℚ), []) := by
      norm_num [parseMantissa,
        show parseDigitsU [ '1', '_', '0'] = some (10, 2, ([] : List Char))
          from by decide]
    have f5 : pyFloatChars [ '1', '_', '0'] = some (.fin 10) := by
      simp only [pyFloatChars, pyFloatMagnitude, f3, parseExponent,
        eq_false (show ¬(( '1' : Char) = '+') from by decide),
        eq_false (show ¬(( '1' : Char) = '-') from by decide), if_false]
      norm_num
    rw [f5]
    norm_num [pyFloatIsNeg]
